import Mathlib

/-!
Verification of the Wordle/Fibble solver engine
(`wordlesolver/wordleoffline/classes/GameState.py` together with
`classes/LetterCell.py` and `constants.py`).

Conventions of the shallow embedding:
* Python strings are `List Char`; the word list `WORDS` (a Python `set` of
  string literals) is the list of its literals in source order, membership
  being the only operation used on it.
* Python's `str.lower()` is `List.map Char.toLower`; functions of the source
  that begin with `word = word.lower()` are split into a `...Core` function
  (the body after the lowering) and a wrapper that performs the lowering.
* Python dicts keyed by positions 0..4 (`correct_pos`, `excluded_pos`) are
  functions out of `Fin 5`; dicts keyed by letters (`min_count`, `max_count`)
  are association lists without duplicate keys, updated by `alistSet`
  (key presence matters for `max_count`, exactly as in the source).
* Mutating methods of `GameState` become functions returning the new state.
  Fields that only serve display or logging (`show_window`, `logging`,
  `was_valid_guess`, the uppercase letters cached in `LetterCell`) are
  omitted; `random.choice` / `random.randint` in `reset` become explicit
  parameters for the chosen target and lie column.
-/

/-! ## Feedback engine (`GameState._calculate_feedback`, truthful part)

The source lowercases guess and target, then runs two passes over the five
positions: pass 1 marks exact matches `correct` and blanks the used target
letter (`target_letters[i] = None`); pass 2 marks a still-`incorrect`
position `present` if its guess letter occurs among the remaining target
letters, blanking the first such occurrence (`target_letters.index`).
We work over the zipped guess/target list. -/

/-! ## Constraint model (`Constraints` dataclass) -/

/-! ### Proof machinery for the feedback engine -/

/-! ### Association-list and fold helpers -/

/-! ### Soundness of the constraint model for the true target (C2) -/

/-! ### Establish/preserve machinery for `Constraints.update` (C3, C9) -/

/-! ## Game state (`GameState` class): reset, feedback with lie, enter_word -/

/-! ## AI solver (`GameState.enter_word_from_ai` and its helpers) -/

/-- The three per-letter feedback tags, from `classes/LetterCell.py`. -/
inductive Feedback
  | correct
  | present
  | incorrect
deriving DecidableEq

/-- Game status, from `GameState.py` (`Status.end` is spelled `ended` because
`end` is a Lean keyword). -/
inductive Status
  | playing
  | ended
deriving DecidableEq

/-- Pass 1 feedback: position `i` is `correct` iff `guess[i] == target[i]`,
else (for now) `incorrect`.  Pairs each guess letter with its tag. -/
def pass1 (guess target : List Char) : List (Char × Feedback) :=
  (guess.zip target).map fun p =>
    (p.1, if p.1 = p.2 then Feedback.correct else Feedback.incorrect)

/-- Pass 1 remaining target letters: `target_letters` after pass 1, where a
consumed (exactly matched) letter is `none`. -/
def pass1tl (guess target : List Char) : List (Option Char) :=
  (guess.zip target).map fun p => if p.1 = p.2 then none else some p.2

/-- `target_letters.index(c)` followed by blanking: replace the first
`some c` by `none`; `none` result means `c ∉ target_letters`
(the `if guess[i] in target_letters` test failing). -/
def consumeFirst (c : Char) : List (Option Char) → Option (List (Option Char))
  | [] => none
  | o :: rest =>
    if o = some c then some (none :: rest)
    else (consumeFirst c rest).map (o :: ·)

/-- Pass 2 of `_calculate_feedback`: walk the positions left to right; a
position still `incorrect` whose letter survives in `target_letters` becomes
`present` and consumes that letter; other tags pass through unchanged. -/
def pass2 : List (Char × Feedback) → List (Option Char) →
    List (Char × Feedback) × List (Option Char)
  | [], tl => ([], tl)
  | (c, f) :: rest, tl =>
    if f = Feedback.incorrect then
      match consumeFirst c tl with
      | some tl' =>
        let r := pass2 rest tl'
        ((c, Feedback.present) :: r.1, r.2)
      | none =>
        let r := pass2 rest tl
        ((c, Feedback.incorrect) :: r.1, r.2)
    else
      let r := pass2 rest tl
      ((c, f) :: r.1, r.2)

/-- Both passes, keeping each guess letter next to its final tag. -/
def feedbackPairs (guess target : List Char) : List (Char × Feedback) :=
  (pass2 (pass1 guess target) (pass1tl guess target)).1

/-- `_calculate_feedback` on already-lowercased inputs, before lie injection. -/
def calcFeedbackCore (guess target : List Char) : List Feedback :=
  (feedbackPairs guess target).map Prod.snd

/-- Truthful feedback as computed by `GameState._calculate_feedback` when no
lie is applied: the source lowercases `guess` and `self.target_word` first. -/
def calcFeedbackTruthful (guess target : List Char) : List Feedback :=
  calcFeedbackCore (guess.map Char.toLower) (target.map Char.toLower)

/-- Dict-style overwrite `m[k] = v` on an association list: replaces the
value of the first binding of `k`, or appends a new binding. -/
def alistSet : List (Char × Nat) → Char → Nat → List (Char × Nat)
  | [], k, v => [(k, v)]
  | (k', v') :: rest, k, v =>
    if k' = k then (k, v) :: rest else (k', v') :: alistSet rest k v

/-- The solver's constraint store (`Constraints` dataclass in
`GameState.py`).  `correct_pos`/`excluded_pos` are the position-keyed dicts
(positions are 0..4), `min_count`/`max_count` the letter-keyed dicts. -/
structure Constraints where
  correct_pos : Fin 5 → Option Char
  excluded_pos : Fin 5 → List Char
  min_count : List (Char × Nat)
  max_count : List (Char × Nat)

/-- The dataclass defaults: empty dicts, `excluded_pos` mapping each of the
five positions to an empty set. -/
def Constraints.init : Constraints :=
  ⟨fun _ => none, fun _ => [], [], []⟩

/-- The per-guess `confirmed` tally of `Constraints.update`: the number of
non-ignored positions at which `letter` is marked `correct` or `present`
for this guess (`word` already lowercased). -/
def confirmedCount (word : List Char) (fb : List Feedback) (ig : Int)
    (letter : Char) : Nat :=
  ((word.zip fb).enum.filter fun p =>
    decide ((p.1 : Int) ≠ ig) && (p.2.1 == letter)
      && !(p.2.2 == Feedback.incorrect)).length

/-- One step of the first loop of `Constraints.update`: for a non-ignored
position, a `correct` mark pins `correct_pos[position] = letter` and a
`present` mark adds the letter to `excluded_pos[position]`. -/
def updatePins (ig : Int) (acc : Constraints) (p : Nat × (Char × Feedback)) :
    Constraints :=
  if (p.1 : Int) = ig then acc
  else match p.2.2 with
    | Feedback.correct =>
      { acc with correct_pos := fun j =>
          if (j : Nat) = p.1 then some p.2.1 else acc.correct_pos j }
    | Feedback.present =>
      { acc with excluded_pos := fun j =>
          if (j : Nat) = p.1 then (acc.excluded_pos j).insert p.2.1
          else acc.excluded_pos j }
    | Feedback.incorrect => acc

/-- One step of the `min_count` pass of `Constraints.update`:
`min_count[letter] = max(min_count.get(letter, 0), confirmed[letter])` for a
letter with a confirmed (non-ignored `correct`/`present`) occurrence. -/
def updateMins (conf : Char → Nat) (ig : Int) (acc : Constraints)
    (p : Nat × (Char × Feedback)) : Constraints :=
  if (p.1 : Int) = ig ∨ p.2.2 = Feedback.incorrect then acc
  else
    let newMin := max ((acc.min_count.lookup p.2.1).getD 0) (conf p.2.1)
    { acc with min_count := alistSet acc.min_count p.2.1 newMin }

/-- One step of the second loop of `Constraints.update`: a non-ignored
`incorrect` mark sets `max_count[letter] = confirmed.get(letter, 0)` and,
when that confirmed count is zero, adds the letter to the exclusion set of
every position other than `ignore_column`. -/
def updateMaxes (conf : Char → Nat) (ig : Int) (acc : Constraints)
    (p : Nat × (Char × Feedback)) : Constraints :=
  if (p.1 : Int) = ig then acc
  else if p.2.2 = Feedback.incorrect then
    let acc' := { acc with max_count := alistSet acc.max_count p.2.1 (conf p.2.1) }
    if conf p.2.1 = 0 then
      { acc' with excluded_pos := fun j =>
          if ((j : Nat) : Int) ≠ ig then (acc'.excluded_pos j).insert p.2.1
          else acc'.excluded_pos j }
    else acc'
  else acc

/-- Body of `Constraints.update` after `word = word.lower()`.  The three
folds mirror the source: the first loop records `correct` pins and
`present` position-exclusions (skipping `ignore_column`), then `min_count`
is raised for every letter with a confirmed occurrence (the source performs
this once per distinct letter; performing it once per confirmed occurrence
reaches the same store because the operation is idempotent), and a second
loop handles `incorrect` marks. -/
def updateCore (cs : Constraints) (word : List Char) (fb : List Feedback)
    (ig : Int) : Constraints :=
  ((word.zip fb).enum).foldl (updateMaxes (confirmedCount word fb ig) ig)
    (((word.zip fb).enum).foldl (updateMins (confirmedCount word fb ig) ig)
      (((word.zip fb).enum).foldl (updatePins ig) cs))

/-- `Constraints.update(word, feedback, ignore_column)`: lowercases the word
and runs `updateCore`.  The Python default `ignore_column=-1` is passed
explicitly by callers below. -/
def Constraints.update (cs : Constraints) (word : List Char)
    (fb : List Feedback) (ig : Int) : Constraints :=
  updateCore cs (word.map Char.toLower) fb ig

/-- Body of `Constraints.matches` after `word = word.lower()`: the word must
agree with every `correct_pos` pin, avoid every per-position exclusion, and
respect every recorded `min_count`/`max_count` bound.  The source indexes
`word[pos]` for `pos` in 0..4 and is only ever called on 5-letter words; the
`getD` default is immaterial for those. -/
def matchesCore (cs : Constraints) (word : List Char) : Bool :=
  ((List.finRange 5).all fun i =>
    match cs.correct_pos i with
    | some c => word.getD (i : Nat) 'a' == c
    | none => true) &&
  ((List.finRange 5).all fun i =>
    !((cs.excluded_pos i).contains (word.getD (i : Nat) 'a'))) &&
  (cs.min_count.all fun p => decide (p.2 ≤ word.count p.1)) &&
  (cs.max_count.all fun p => decide (word.count p.1 ≤ p.2))

/-- `Constraints.matches(word)`. -/
def Constraints.matches (cs : Constraints) (word : List Char) : Bool :=
  matchesCore cs (word.map Char.toLower)

/-- Number of positions of `l` whose letter is `c` and whose tag is `f`. -/
def tagCount (c : Char) (f : Feedback) (l : List (Char × Feedback)) : Nat :=
  l.countP fun p => p.1 == c && p.2 == f

/-- Number of positions of `l` whose letter is `c` and whose tag is
`correct` or `present` (the confirmed occurrences of `c`). -/
def cpCount (c : Char) (l : List (Char × Feedback)) : Nat :=
  l.countP fun p => p.1 == c && !(p.2 == Feedback.incorrect)

/-- All constraints recorded in `cs` hold of the (lowercased, length-5)
target word `T`. -/
def Sound (cs : Constraints) (T : List Char) : Prop :=
  (∀ i : Fin 5, ∀ c, cs.correct_pos i = some c → T.getD (i : Nat) 'a' = c) ∧
  (∀ i : Fin 5, T.getD (i : Nat) 'a' ∉ cs.excluded_pos i) ∧
  (∀ p ∈ cs.min_count, p.2 ≤ T.count p.1) ∧
  (∀ p ∈ cs.max_count, T.count p.1 ≤ p.2)

/-- Part 1 of the source word set `WORDS`. -/
def wordsPart1 : List String :=
  [
    "aback", "abase", "abate", "abbey", "abbot", "abhor", "abide", "abort",
    "about", "above", "abuse", "abyss", "acorn", "acrid", "actor", "acute",
    "adage", "adapt", "admit", "adobe", "adopt", "adore", "adorn", "adult",
    "aegis", "after", "again", "agape", "agate", "agent", "agile", "aging",
    "agony", "agree", "ahead", "aisle", "alarm", "album", "alert", "algae",
    "alibi", "alien", "align", "alike", "alive", "allay", "alley", "allot",
    "allow", "alloy", "aloft", "alone", "along", "aloof", "aloud", "alpha",
    "altar", "alter", "amass", "amaze", "amber", "amble", "amend", "amiss",
    "among", "ample", "amuse", "angel", "anger", "angle", "angry", "angst",
    "anime", "ankle", "annex", "annoy", "antic", "anvil", "aorta", "apart",
    "aphid", "apple", "apply", "apron", "arbor", "ardor", "arena", "argue",
    "arise", "armor", "aroma", "arose", "array", "arrow", "arson", "artsy",
    "ascot", "ashen", "aside", "askew", "asset", "atlas", "atoll", "atone",
    "attic", "audio", "audit", "augur", "aunty", "avail", "avert", "avoid",
    "await", "awake", "award", "aware", "awful", "awoke", "axial", "axiom"
  ]

/-- Part 2 of the source word set `WORDS`. -/
def wordsPart2 : List String :=
  [
    "azure", "bacon", "badge", "badly", "bagel", "baggy", "baker", "balmy",
    "banal", "banjo", "barge", "baron", "basal", "basic", "basil", "basin",
    "basis", "batch", "bathe", "baton", "batty", "beach", "beady", "beard",
    "beast", "beech", "beefy", "began", "begin", "begun", "being", "belch",
    "belie", "belle", "belly", "below", "bench", "beret", "berry", "berth",
    "beset", "bevel", "bible", "bicep", "bight", "bilge", "binge", "bingo",
    "birch", "birth", "bison", "black", "blade", "blame", "bland", "blank",
    "blare", "blast", "blaze", "bleak", "bleat", "bleed", "blend", "bless",
    "blimp", "blind", "blink", "bliss", "blitz", "bloat", "block", "bloke",
    "blond", "blood", "bloom", "blown", "blues", "bluff", "blunt", "blurb",
    "blurt", "blush", "board", "boast", "bobby", "bongo", "bonus", "boost",
    "booth", "booty", "booze", "borax", "borne", "bosom", "bossy", "botch",
    "bough", "bound", "bowel", "boxer", "brace", "braid", "brain", "brake",
    "brand", "brash", "brass", "brave", "bravo", "brawl", "brawn", "bread",
    "break", "breed", "briar", "bribe", "brick", "bride", "brief", "brine"
  ]

/-- Part 3 of the source word set `WORDS`. -/
def wordsPart3 : List String :=
  [
    "bring", "brink", "brisk", "broad", "broil", "broke", "brood", "brook",
    "broom", "broth", "brown", "brunt", "brush", "brute", "buddy", "budge",
    "buggy", "bugle", "build", "built", "bulge", "bulky", "bully", "bunch",
    "bunny", "burly", "burnt", "burst", "bushy", "butch", "buyer", "bylaw",
    "cabal", "cabby", "cabin", "cable", "cacao", "cache", "cacti", "caddy",
    "cadet", "camel", "cameo", "canal", "candy", "canny", "canoe", "caper",
    "carat", "cargo", "carol", "carry", "carve", "caste", "catch", "cater",
    "catty", "caulk", "cause", "cease", "cedar", "cello", "chafe", "chaff",
    "chain", "chair", "chalk", "champ", "chant", "chaos", "chard", "charm",
    "chart", "chase", "chasm", "cheap", "cheat", "check", "cheek", "cheer",
    "chess", "chest", "chick", "chide", "chief", "child", "chili", "chill",
    "chimp", "china", "chirp", "choir", "choke", "chord", "chore", "chose",
    "chuck", "chump", "chunk", "churn", "chute", "cider", "cigar", "cinch",
    "circa", "civic", "civil", "clack", "claim", "clamp", "clang", "clank",
    "clash", "clasp", "class", "clean", "clear", "cleat", "cleft", "clerk"
  ]

/-- Part 4 of the source word set `WORDS`. -/
def wordsPart4 : List String :=
  [
    "click", "cliff", "climb", "cling", "cloak", "clock", "clone", "close",
    "cloth", "cloud", "clout", "clown", "clubs", "cluck", "clump", "clung",
    "coach", "coast", "cobra", "cocoa", "colon", "color", "comet", "comfy",
    "comic", "comma", "conch", "condo", "coral", "corny", "couch", "cough",
    "could", "count", "coupe", "court", "coven", "cover", "covet", "cower",
    "crack", "craft", "cramp", "crane", "crank", "crash", "crass", "crate",
    "crave", "crawl", "craze", "crazy", "creak", "cream", "credo", "creed",
    "creek", "creep", "creme", "crepe", "crept", "crest", "crick", "cried",
    "crime", "crimp", "crisp", "croak", "crock", "crone", "crony", "crook",
    "cross", "crowd", "crown", "crude", "cruel", "crush", "crust", "crypt",
    "cubic", "cumin", "cupid", "curly", "curry", "curse", "curve", "cyber",
    "cycle", "cynic", "daddy", "daily", "dairy", "daisy", "dance", "dandy",
    "datum", "dealt", "death", "debit", "debug", "debut", "decal", "decay",
    "decor", "decoy", "decry", "defer", "deity", "delay", "delta", "delve",
    "demon", "demur", "denim", "dense", "depot", "depth", "derby", "deter"
  ]

/-- Part 5 of the source word set `WORDS`. -/
def wordsPart5 : List String :=
  [
    "devil", "diary", "dicey", "digit", "dimly", "diner", "dingo", "dingy",
    "dirty", "disco", "ditch", "ditto", "ditty", "diver", "dizzy", "dodge",
    "dogma", "doing", "dolly", "donor", "donut", "doubt", "dough", "dowdy",
    "dowel", "dowry", "dozen", "draft", "drain", "drake", "drama", "drank",
    "drape", "drawl", "drawn", "dread", "dream", "dress", "dried", "drier",
    "drift", "drill", "drink", "drive", "droit", "droll", "drone", "drool",
    "droop", "dross", "drove", "drown", "drugs", "drunk", "dryer", "dryly",
    "duchy", "dully", "dummy", "dumpy", "dunce", "dusky", "dusty", "dutch",
    "dwarf", "dwell", "dying", "eager", "eagle", "early", "earth", "easel",
    "eaten", "eater", "ebony", "edict", "edify", "eerie", "eight", "eject",
    "elbow", "elder", "elect", "elegy", "elfin", "elite", "elope", "elude",
    "elves", "email", "embed", "ember", "empty", "enact", "endow", "enemy",
    "enjoy", "ennui", "ensue", "enter", "entry", "envoy", "epoch", "epoxy",
    "equal", "equip", "erase", "erect", "erode", "error", "erupt", "essay",
    "ether", "ethic", "ethos", "evade", "event", "every", "evict", "evoke"
  ]

/-- Part 6 of the source word set `WORDS`. -/
def wordsPart6 : List String :=
  [
    "exact", "exalt", "excel", "exert", "exile", "exist", "expat", "expel",
    "extol", "extra", "exude", "exult", "fable", "facet", "faint", "fairy",
    "faith", "false", "famed", "fancy", "fatal", "fatty", "fault", "fauna",
    "favor", "feast", "feign", "felon", "femur", "fence", "feral", "ferry",
    "fetal", "fetch", "fetid", "fetus", "fever", "fewer", "fiber", "fibre",
    "field", "fiend", "fiery", "fifth", "fifty", "fight", "filch", "filet",
    "filly", "filmy", "filth", "final", "finch", "first", "fishy", "fixed",
    "fixer", "fizzy", "fjord", "flack", "flail", "flair", "flake", "flaky",
    "flame", "flank", "flare", "flash", "flask", "fleck", "flesh", "flick",
    "flier", "fling", "flint", "flirt", "float", "flock", "flood", "floor",
    "floss", "flour", "flout", "flown", "fluff", "fluid", "fluke", "flung",
    "flunk", "flush", "flute", "foamy", "focal", "focus", "foggy", "foist",
    "folly", "foray", "force", "forge", "forgo", "forte", "forth", "forty",
    "forum", "found", "foyer", "frail", "frame", "frank", "fraud", "freak",
    "freed", "fresh", "friar", "fried", "frill", "frisk", "frizz", "frock"
  ]

/-- Part 7 of the source word set `WORDS`. -/
def wordsPart7 : List String :=
  [
    "frond", "front", "frost", "froth", "frown", "froze", "fruit", "fudge",
    "fugue", "fully", "fungi", "funky", "funny", "furor", "furry", "fussy",
    "fuzzy", "gaffe", "gaily", "gamer", "gamma", "gamut", "gassy", "gaudy",
    "gauge", "gaunt", "gauze", "gavel", "gawky", "gazer", "geeky", "geese",
    "genie", "genre", "ghost", "giant", "giddy", "girth", "giver", "gizmo",
    "glade", "gland", "glare", "glass", "glaze", "gleam", "glean", "glide",
    "glint", "gloat", "globe", "gloom", "glory", "gloss", "glove", "glyph",
    "gnash", "gnome", "godly", "going", "golly", "gonad", "goner", "gooey",
    "goofy", "goose", "gorge", "gouge", "gourd", "grace", "grade", "graft",
    "grail", "grain", "grand", "grant", "grape", "graph", "grasp", "grass",
    "grate", "grave", "gravy", "graze", "great", "greed", "green", "greet",
    "grief", "grill", "grime", "grimy", "grind", "gripe", "grits", "groan",
    "groin", "groom", "grope", "gross", "group", "grout", "grove", "growl",
    "grown", "gruel", "gruff", "grunt", "guano", "guard", "guava", "guess",
    "guest", "guide", "guild", "guilt", "guise", "gulch", "gummy", "guppy"
  ]

/-- Part 8 of the source word set `WORDS`. -/
def wordsPart8 : List String :=
  [
    "gusto", "gusty", "gypsy", "habit", "haiku", "hairy", "halve", "handy",
    "happy", "hardy", "harem", "harpy", "harry", "harsh", "haste", "hasty",
    "hatch", "hater", "haunt", "haven", "havoc", "hazel", "heady", "heard",
    "heart", "heath", "heave", "heavy", "hedge", "hefty", "heist", "hello",
    "hence", "heron", "hilly", "hinge", "hippo", "hippy", "hitch", "hoard",
    "hobby", "hoist", "holly", "homer", "honey", "honor", "horde", "horny",
    "horse", "hotel", "hotly", "hound", "house", "hovel", "hover", "howdy",
    "hubby", "human", "humid", "humor", "humus", "hunch", "hunky", "hurry",
    "husky", "hussy", "hyena", "hymen", "hyper", "icier", "icing", "ideal",
    "idiom", "idiot", "idler", "idyll", "igloo", "image", "imbue", "impel",
    "imply", "inane", "incur", "index", "indie", "inept", "inert", "infer",
    "ingot", "inlay", "inlet", "inner", "input", "inter", "intro", "ionic",
    "irate", "irony", "islet", "issue", "itchy", "ivory", "jaunt", "jazzy",
    "jeans", "jelly", "jenny", "jerky", "jewel", "jiffy", "jimmy", "joint",
    "joist", "joker", "jolly", "joust", "judge", "juice", "juicy", "jumbo"
  ]

/-- Part 9 of the source word set `WORDS`. -/
def wordsPart9 : List String :=
  [
    "jumpy", "junco", "junky", "juror", "karma", "kayak", "kebab", "khaki",
    "kinky", "kiosk", "kitty", "knack", "knead", "kneed", "kneel", "knelt",
    "knife", "knock", "knoll", "known", "koala", "krill", "label", "labor",
    "laden", "ladle", "lager", "lance", "lanky", "lapel", "lapse", "large",
    "larva", "lasso", "latch", "later", "latex", "lathe", "latte", "laugh",
    "layer", "leach", "leafy", "leaky", "leant", "leapt", "learn", "lease",
    "leash", "least", "leave", "ledge", "leech", "leery", "legal", "leggy",
    "lemon", "lemur", "leper", "level", "lever", "libel", "light", "liken",
    "lilac", "limbo", "limit", "lined", "linen", "liner", "lingo", "lipid",
    "liter", "lithe", "lived", "liven", "liver", "livid", "llama", "loamy",
    "loath", "lobby", "local", "locus", "lodge", "lofty", "logic", "login",
    "loins", "loner", "loopy", "loose", "lorry", "loser", "louse", "lousy",
    "loved", "lover", "lower", "lowly", "loyal", "lucid", "lucky", "lumen",
    "lumpy", "lunar", "lunch", "lunge", "lusty", "lying", "lymph", "lynch",
    "lyric", "macaw", "macho", "macro", "madam", "madly", "mafia", "magic"
  ]

/-- Part 10 of the source word set `WORDS`. -/
def wordsPart10 : List String :=
  [
    "magma", "maize", "major", "maker", "mambo", "mamma", "manga", "mange",
    "mango", "mangy", "mania", "manic", "manly", "manor", "maple", "march",
    "marry", "marsh", "mason", "match", "mater", "matey", "mauve", "maxim",
    "maybe", "mayor", "mealy", "meant", "meaty", "mecca", "medal", "media",
    "medic", "melee", "melon", "mercy", "merge", "merit", "merry", "messy",
    "metal", "meter", "metro", "micro", "midst", "might", "milky", "mimic",
    "mince", "mined", "miner", "minim", "minor", "minty", "minus", "mirth",
    "miser", "missy", "misty", "miter", "mixed", "mixer", "model", "modem",
    "mogul", "moist", "molar", "moldy", "money", "month", "mooch", "moody",
    "moose", "moped", "moral", "moron", "morph", "mossy", "motel", "motif",
    "motor", "motto", "moult", "mound", "mount", "mourn", "mouse", "mousy",
    "mouth", "moved", "mover", "movie", "mower", "mucky", "mucus", "muddy",
    "mulch", "mummy", "munch", "mural", "murky", "mushy", "music", "musky",
    "musty", "myrrh", "nadir", "naive", "named", "nanny", "nasal", "nasty",
    "natal", "naval", "navel", "needy", "neigh", "nerve", "nervy", "never"
  ]

/-- Part 11 of the source word set `WORDS`. -/
def wordsPart11 : List String :=
  [
    "newer", "newly", "nicer", "niche", "niece", "nifty", "night", "ninja",
    "ninny", "ninth", "nippy", "noble", "nobly", "noise", "noisy", "nomad",
    "noose", "north", "notch", "noted", "novel", "nudge", "nurse", "nutty",
    "nylon", "nymph", "oaken", "oasis", "occur", "ocean", "octet", "odder",
    "oddly", "offal", "offer", "often", "oiled", "olden", "older", "olive",
    "omega", "onion", "onset", "opera", "optic", "orbit", "order", "organ",
    "other", "otter", "ought", "ounce", "outdo", "outer", "outgo", "ovary",
    "overt", "owing", "owner", "oxide", "ozone", "paddy", "pagan", "paint",
    "panda", "panel", "panic", "pansy", "pants", "papal", "paper", "parka",
    "party", "pasta", "paste", "pasty", "patch", "patio", "patsy", "patty",
    "pause", "payee", "payer", "peace", "peach", "pearl", "pecan", "pedal",
    "penal", "penny", "perch", "peril", "perky", "pesky", "pesto", "petal",
    "petty", "phase", "phone", "phony", "photo", "piano", "picky", "piece",
    "piety", "piggy", "pilot", "pinch", "piney", "pinky", "pinto", "pious",
    "piper", "pitch", "pithy", "pivot", "pixel", "pixie", "pizza", "place"
  ]

/-- Part 12 of the source word set `WORDS`. -/
def wordsPart12 : List String :=
  [
    "plaid", "plain", "plane", "plank", "plant", "plate", "plaza", "plead",
    "pleas", "pleat", "plied", "plier", "plods", "pluck", "plumb", "plume",
    "plump", "plunk", "plush", "poach", "poems", "point", "poise", "poker",
    "polar", "polka", "polyp", "pooch", "poppy", "porch", "poser", "posit",
    "posse", "pouch", "pound", "power", "prank", "prawn", "preen", "press",
    "price", "prick", "pride", "pried", "prime", "primo", "print", "prior",
    "prism", "privy", "prize", "probe", "promo", "prone", "prong", "proof",
    "prose", "proud", "prove", "prowl", "proxy", "prude", "prune", "psalm",
    "pubic", "pudgy", "pulse", "punch", "pupil", "puppy", "puree", "purge",
    "purse", "pushy", "putty", "pygmy", "quack", "quaff", "quail", "qualm",
    "quark", "quart", "quasi", "queen", "query", "quest", "queue", "quick",
    "quiet", "quill", "quilt", "quirk", "quota", "quote", "rabbi", "rabid",
    "racer", "radar", "radii", "radio", "radon", "rainy", "raise", "rajah",
    "rally", "ranch", "randy", "range", "rapid", "raspy", "ratio", "ratty",
    "raven", "rayon", "razor", "reach", "react", "reads", "ready", "realm"
  ]

/-- Part 13 of the source word set `WORDS`. -/
def wordsPart13 : List String :=
  [
    "reams", "rebel", "rebut", "recap", "recur", "redux", "refer", "regal",
    "rehab", "reign", "relax", "relay", "relic", "remit", "remix", "renal",
    "renew", "repay", "repel", "reply", "rerun", "reset", "resin", "retch",
    "retro", "retry", "reuse", "revel", "rhino", "rhyme", "rider", "ridge",
    "rifle", "right", "rigid", "rigor", "rinse", "ripen", "risen", "riser",
    "risky", "ritzy", "rival", "river", "rivet", "roach", "roast", "robin",
    "robot", "rocks", "rocky", "rodeo", "roger", "rogue", "roomy", "roost",
    "rotor", "rouge", "rough", "round", "rouse", "route", "rowdy", "rowed",
    "rower", "royal", "ruddy", "ruder", "rugby", "ruins", "ruled", "ruler",
    "rules", "rumba", "rumor", "rupee", "rural", "rusty", "sadly", "safer",
    "saint", "saker", "salad", "salet", "sally", "salon", "salsa", "salty",
    "salve", "salvo", "saner", "sandy", "sappy", "sassy", "satin", "satyr",
    "sauce", "saucy", "sauna", "saute", "saved", "saver", "savor", "savoy",
    "savvy", "scald", "scale", "scalp", "scaly", "scamp", "scant", "scare",
    "scarf", "scary", "scene", "scent", "scion", "scoff", "scold", "scone"
  ]

/-- Part 14 of the source word set `WORDS`. -/
def wordsPart14 : List String :=
  [
    "scoop", "scope", "score", "scorn", "scour", "scout", "scowl", "scram",
    "scrap", "scree", "screw", "scrub", "seamy", "sedan", "seedy", "segue",
    "seize", "semen", "sense", "sepia", "serum", "serve", "setup", "seven",
    "sever", "sewer", "shack", "shade", "shady", "shaft", "shake", "shaky",
    "shall", "shame", "shank", "shape", "shard", "share", "shark", "sharp",
    "shave", "shawl", "shear", "sheen", "sheep", "sheer", "sheet", "shelf",
    "shell", "shift", "shine", "shiny", "ships", "shire", "shirk", "shirt",
    "shock", "shone", "shook", "shoot", "shops", "shore", "short", "shots",
    "shout", "shove", "shown", "shows", "showy", "shrew", "shrub", "shrug",
    "shuck", "shunt", "shush", "shyly", "siege", "sight", "sigma", "silky",
    "silly", "since", "sinew", "singe", "siren", "sissy", "sixth", "sixty",
    "sized", "sizer", "sizes", "skate", "skeet", "skein", "skier", "skies",
    "skiff", "skill", "skimp", "skirt", "skulk", "skull", "skunk", "slack",
    "slain", "slang", "slant", "slash", "slate", "slave", "sleek", "sleep",
    "sleet", "slept", "slice", "slick", "slide", "slime", "slimy", "sling"
  ]

/-- Part 15 of the source word set `WORDS`. -/
def wordsPart15 : List String :=
  [
    "slink", "slope", "slosh", "sloth", "slump", "slung", "slunk", "slurp",
    "slush", "slyly", "smack", "small", "smart", "smash", "smear", "smell",
    "smelt", "smile", "smirk", "smite", "smith", "smock", "smoke", "smoky",
    "snack", "snafu", "snail", "snake", "snaky", "snare", "snarl", "sneak",
    "sneer", "snide", "sniff", "snipe", "snoop", "snore", "snort", "snout",
    "snowy", "snuck", "snuff", "soapy", "sober", "solar", "solid", "solve",
    "sonar", "sonic", "sooth", "sooty", "sorry", "sorts", "sound", "south",
    "sowed", "sower", "space", "spade", "spank", "spare", "spark", "spasm",
    "spawn", "speak", "spear", "speck", "speed", "spell", "spend", "spent",
    "spice", "spicy", "spied", "spiel", "spike", "spill", "spine", "spiny",
    "spire", "spite", "splat", "split", "spoil", "spoke", "spoof", "spook",
    "spool", "spoon", "spore", "sport", "spots", "spout", "spray", "spree",
    "sprig", "spunk", "spurn", "spurt", "squad", "squat", "squid", "stack",
    "staff", "stage", "staid", "stain", "stair", "stake", "stale", "stalk",
    "stall", "stamp", "stand", "stank", "staph", "stare", "stark", "stars"
  ]

/-- Part 16 of the source word set `WORDS`. -/
def wordsPart16 : List String :=
  [
    "start", "stash", "state", "stave", "stays", "stead", "steak", "steal",
    "steam", "steel", "steep", "steer", "stein", "stems", "steps", "stern",
    "stews", "stick", "stiff", "still", "stilt", "sting", "stink", "stint",
    "stock", "stoic", "stoke", "stole", "stomp", "stone", "stony", "stood",
    "stool", "stoop", "stops", "store", "stork", "storm", "story", "stout",
    "stove", "strap", "straw", "stray", "strep", "strew", "strip", "strut",
    "stuck", "studs", "study", "stuff", "stump", "stung", "stunk", "stunt",
    "style", "suave", "sugar", "suite", "sulky", "sully", "sunny", "super",
    "surer", "surge", "surly", "sushi", "swami", "swamp", "swank", "swarm",
    "swash", "swath", "swear", "sweat", "sweep", "sweet", "swell", "swept",
    "swift", "swill", "swine", "swing", "swipe", "swirl", "swish", "swiss",
    "swoon", "swoop", "sword", "swore", "sworn", "swung", "tabby", "table",
    "taboo", "tacit", "tacky", "taffy", "taint", "taken", "taker", "tally",
    "talon", "tamed", "tamer", "tango", "tangy", "taper", "tapir", "tardy",
    "tarot", "taste", "tasty", "tatty", "taunt", "tawny", "teach", "teams"
  ]

/-- Part 17 of the source word set `WORDS`. -/
def wordsPart17 : List String :=
  [
    "teary", "tease", "teddy", "teems", "teens", "teeny", "teeth", "tempo",
    "tempt", "tends", "tenor", "tense", "tenth", "tents", "tepee", "tepid",
    "terms", "terra", "terse", "tests", "testy", "thank", "theft", "their",
    "theme", "there", "these", "thick", "thief", "thigh", "thing", "think",
    "third", "thong", "thorn", "those", "three", "threw", "throb", "throw",
    "thrum", "thuds", "thumb", "thump", "tiara", "tibia", "tidal", "tiger",
    "tight", "tilde", "timer", "timid", "tipsy", "titan", "title", "toast",
    "today", "toddy", "token", "tonal", "toned", "toner", "tongs", "tonic",
    "tools", "tooth", "topaz", "topic", "torch", "torso", "total", "totem",
    "touch", "tough", "tours", "towel", "tower", "towns", "toxic", "trace",
    "track", "tract", "trade", "trail", "train", "trait", "tramp", "trash",
    "trawl", "tread", "treat", "trees", "trend", "tress", "triad", "trial",
    "tribe", "trick", "tried", "trier", "tries", "trill", "trims", "tripe",
    "trite", "troll", "tromp", "troop", "trope", "troth", "trots", "trout",
    "trove", "truce", "truck", "truer", "truly", "trump", "trunk", "truss"
  ]

/-- Part 18 of the source word set `WORDS`. -/
def wordsPart18 : List String :=
  [
    "trust", "truth", "tryst", "tubal", "tubes", "tulip", "tumor", "tuned",
    "tuner", "tunic", "turbo", "turns", "tutor", "twain", "twang", "tweak",
    "tweed", "tweet", "twice", "twigs", "twill", "twine", "twins", "twirl",
    "twist", "tying", "udder", "ulcer", "ultra", "umbra", "uncle", "uncut",
    "under", "undid", "undue", "unfed", "unfit", "unify", "union", "unite",
    "units", "unity", "unlit", "unmet", "untie", "until", "unwed", "unzip",
    "upper", "upset", "urban", "urine", "usage", "usher", "using", "usual",
    "usurp", "utter", "vague", "valet", "valid", "valor", "value", "valve",
    "vapid", "vapor", "vault", "vaunt", "vegan", "veils", "venom", "venue",
    "verbs", "verge", "verse", "vicar", "video", "views", "vigil", "vigor",
    "villa", "vines", "vinyl", "viola", "viper", "viral", "virus", "visor",
    "vista", "vital", "vivid", "vixen", "vocal", "vodka", "vogue", "voice",
    "voila", "vomit", "voted", "voter", "vouch", "vowel", "vying", "wacky",
    "waded", "wader", "wafer", "waged", "wager", "wages", "wagon", "waist",
    "waive", "walks", "walls", "waltz", "wands", "wants", "warty", "waste"
  ]

/-- Part 19 of the source word set `WORDS`. -/
def wordsPart19 : List String :=
  [
    "watch", "water", "watts", "waved", "waver", "waves", "waxed", "waxen",
    "weary", "weave", "wedge", "weeds", "weedy", "weeks", "weigh", "weird",
    "wells", "welsh", "wench", "whack", "whale", "wharf", "wheat", "wheel",
    "whelp", "where", "which", "whiff", "while", "whims", "whine", "whiny",
    "whirl", "whisk", "white", "whole", "whoop", "whose", "widen", "wider",
    "widow", "width", "wield", "wills", "wince", "winch", "winds", "windy",
    "wines", "wings", "wiped", "wiper", "wired", "wires", "wiser", "wispy",
    "witch", "witty", "wives", "woken", "woman", "women", "woods", "woody",
    "woozy", "wordy", "works", "world", "worms", "worry", "worse", "worst",
    "worth", "would", "wound", "woven", "wrack", "wrath", "wreak", "wreck",
    "wrest", "wring", "wrist", "write", "wrong", "wrote", "wrung", "yacht",
    "yearn", "yeast", "yield", "young", "yours", "youth", "zebra", "zesty",
    "zonal", "zones", "reast", "tares", "rates", "tears", "aster", "earns",
    "nears"
  ]

/-- The word list `WORDS` of `GameState.py`: a Python `set` literal of 2265
distinct 5-letter words, modelled as the list of its elements in source
order (one occurrence each; only membership and filtering are ever used).
The literal is split into parts so that facts about it can be checked
chunk by chunk. -/
def WORDS : List String :=
  wordsPart1 ++ wordsPart2 ++ wordsPart3 ++ wordsPart4 ++ wordsPart5 ++ wordsPart6 ++ wordsPart7 ++ wordsPart8 ++ wordsPart9 ++ wordsPart10 ++ wordsPart11 ++ wordsPart12 ++ wordsPart13 ++ wordsPart14 ++ wordsPart15 ++ wordsPart16 ++ wordsPart17 ++ wordsPart18 ++ wordsPart19

/-- `WORDS` as lists of characters. -/
def WORDSL : List (List Char) :=
  WORDS.map String.toList

/-- The strengthening relation of C9: `min_count` bounds never drop,
position exclusions never shrink, and a pinned position stays pinned. -/
def Strengthens (cs cs' : Constraints) : Prop :=
  (∀ c : Char, (cs.min_count.lookup c).getD 0 ≤ (cs'.min_count.lookup c).getD 0) ∧
  (∀ j : Fin 5, ∀ c, c ∈ cs.excluded_pos j → c ∈ cs'.excluded_pos j) ∧
  (∀ j : Fin 5, ∀ c, cs.correct_pos j = some c → ∃ c', cs'.correct_pos j = some c')

/-- The lie flip of `GameState._apply_lie`: `correct`→`incorrect`,
`present`→`incorrect`, `incorrect`→`present`. -/
def flipFb : Feedback → Feedback
  | Feedback.correct => Feedback.incorrect
  | Feedback.present => Feedback.incorrect
  | Feedback.incorrect => Feedback.present

/-- The game-facing state of the `GameState` class.  Each entry of `words`
is one guessed `Word` object, kept as its lowercased text together with its
feedback (the display-only data of `LetterCell` is dropped).
`current_word_index` mirrors the source field of the same name;
`show_window`, `logging` and `was_valid_guess` are omitted (display only). -/
structure GameState where
  target_word : List Char
  num_lies : Nat
  num_guesses : Nat
  words : List (List Char × List Feedback)
  current_word_index : Nat
  status : Status
  success : Bool
  lie_column : Option Nat
  lies_given : Nat

/-- `GameState.reset`: clears the board, installs the (randomly drawn)
target and, in Fibble mode, the (randomly drawn) lie column; the two
`random` draws of the source are passed in as the parameters `target`
(drawn from the word list) and `lieCol` (drawn from 0..4). -/
def GameState.reset (gs : GameState) (target : List Char) (lieCol : Nat) :
    GameState :=
  { gs with
    words := []
    current_word_index := 0
    target_word := target
    status := Status.playing
    success := false
    lie_column := if 0 < gs.num_lies then some lieCol else none
    lies_given := 0 }

/-- A fresh `GameState` as built by `GameState.__init__` (defaults
`num_lies = 0`, `num_guesses = 6`) followed by the `reset()` it performs. -/
def GameState.init (target : List Char) (lieCol : Nat) : GameState :=
  GameState.reset
    { target_word := []
      num_lies := 0
      num_guesses := 6
      words := []
      current_word_index := 0
      status := Status.playing
      success := false
      lie_column := none
      lies_given := 0 } target lieCol

/-- `GameState._apply_lie`: if a lie column is set and budget remains, flip
that column's tag and consume one budget unit. -/
def GameState.apply_lie (gs : GameState) (fb : List Feedback) :
    List Feedback × GameState :=
  match gs.lie_column with
  | some col =>
    if gs.lies_given < gs.num_lies then
      (fb.set col (flipFb (fb.getD col Feedback.incorrect)),
        { gs with lies_given := gs.lies_given + 1 })
    else (fb, gs)
  | none => (fb, gs)

/-- `GameState._calculate_feedback`: truthful two-pass feedback, then the
Fibble lie when `num_lies > 0` and budget remains. -/
def GameState.calculate_feedback (gs : GameState) (guess : List Char) :
    List Feedback × GameState :=
  if 0 < gs.num_lies ∧ gs.lies_given < gs.num_lies then
    gs.apply_lie (calcFeedbackTruthful guess gs.target_word)
  else (calcFeedbackTruthful guess gs.target_word, gs)

/-- `GameState.enter_word`: lowercase the guess, compute feedback, append
the new `Word`, and update `status`/`success` (win on exact match, loss
when the guess count reaches `num_guesses`). -/
def GameState.enter_word (gs : GameState) (guess : List Char) : GameState :=
  let guessL := guess.map Char.toLower
  let r := gs.calculate_feedback guessL
  let gs2 : GameState := { r.2 with
    words := r.2.words ++ [(guessL, r.1)]
    current_word_index := r.2.words.length + 1 }
  if guessL = gs2.target_word then
    { gs2 with success := true, status := Status.ended }
  else if gs2.num_guesses ≤ gs2.words.length then
    { gs2 with success := false, status := Status.ended }
  else gs2

/-- `GameState.num_of_tries`: the number of guesses made. -/
def GameState.num_of_tries (gs : GameState) : Nat :=
  gs.words.length

/-- A concrete Fibble game used by the C4 witness: one lie, lie column 2,
target `crane`. -/
def fibbleTestGame : GameState :=
  GameState.reset ⟨[], 1, 6, [], 0, Status.playing, false, none, 0⟩
    "crane".toList 2

/-- States reachable from `start` by calls to `enter_word` that are each
made while the game is still in progress. -/
inductive Reaches (start : GameState) : GameState → Prop
  | refl : Reaches start start
  | step {gs : GameState} {g : List Char} : Reaches start gs →
      gs.status = Status.playing → Reaches start (gs.enter_word g)

/-- Invariant of a no-lie game driven by playing-only `enter_word` calls. -/
def RunInv (gs : GameState) : Prop :=
  gs.num_lies = 0 ∧
  gs.words.length ≤ gs.num_guesses ∧
  (gs.status = Status.playing → gs.words.length < gs.num_guesses ∧
    (gs.words.getLast?).map Prod.fst ≠ some gs.target_word) ∧
  (gs.status = Status.ended →
    ((gs.words.getLast?).map Prod.fst = some gs.target_word ∨
      gs.words.length = gs.num_guesses)) ∧
  (gs.success = true ↔
    (gs.words.getLast?).map Prod.fst = some gs.target_word)

/-- `MAX_LLM_CONTINUOUS_CALLS` from `constants.py`. -/
def MAX_LLM_CONTINUOUS_CALLS : Nat := 5

/-- The `STARTERS` list of `GameState.py`. -/
def STARTERS : List String :=
  ["salet", "reast", "crate", "trace", "slate", "crane", "slant"]

/-- `_score_word`: letter-frequency score over the distinct letters plus a
diversity bonus.  The source uses the float table
e 12.7, t 9.1, a 8.2, o 7.5, i 7.0, n 6.7, s 6.3, h 6.1, r 6.0, d 4.3,
l 4.0, c 2.8, default 0.1, and adds `len(set(word)) * 2`; everything here
is scaled by ten to stay in `Nat`, which preserves the ranking. -/
def score_word (word : List Char) : Nat :=
  (word.dedup.map fun c =>
    if c = 'e' then 127 else if c = 't' then 91 else if c = 'a' then 82
    else if c = 'o' then 75 else if c = 'i' then 70 else if c = 'n' then 67
    else if c = 's' then 63 else if c = 'h' then 61 else if c = 'r' then 60
    else if c = 'd' then 43 else if c = 'l' then 40 else if c = 'c' then 28
    else 1).sum + word.dedup.length * 20

/-- Stable descending insertion by `score_word`: a new element goes after
every already-placed element of score greater than or equal to its own, so
the fold below produces exactly the output of Python's stable
`sorted(candidates, key=_score_word, reverse=True)`. -/
def insertDesc (x : List Char) : List (List Char) → List (List Char)
  | [] => [x]
  | y :: ys =>
    if score_word y < score_word x then x :: y :: ys
    else y :: insertDesc x ys

/-- `sorted(candidates, key=_score_word, reverse=True)`. -/
def sortDesc (l : List (List Char)) : List (List Char) :=
  l.foldl (fun acc x => insertDesc x acc) []

/-- Word characters for the regex boundary `\b`: letters, digits and
underscore. -/
def isWordChar (c : Char) : Bool := c.isAlphanum || c = '_'

/-- One match of the pattern `\b[a-zA-Z]{5}\b` starting at index `i`: five
ASCII letters, with a word boundary on each side. -/
def matchAt (cs : List Char) (i : Nat) : Bool :=
  decide (i + 5 ≤ cs.length) &&
  ((List.range 5).all fun k => (cs.getD (i + k) ' ').isAlpha) &&
  (decide (i + 5 = cs.length) || !isWordChar (cs.getD (i + 5) ' ')) &&
  (decide (i = 0) || !isWordChar (cs.getD (i - 1) ' '))

/-- `re.findall(r'\b[a-zA-Z]{5}\b', text)`: two `\b`-delimited matches can
never overlap, so the left-to-right non-overlapping scan returns exactly
the matches at the indices where `matchAt` holds, in order. -/
def findall5 (cs : List Char) : List (List Char) :=
  (List.range cs.length).filterMap fun i =>
    if matchAt cs i then some ((cs.drop i).take 5) else none

/-- `_extract_word(text)`: `None` on empty input; otherwise strip and
lowercase, accept a bare 5-letter alphabetic reply, else scan for 5-letter
tokens preferring one in `WORDS`, else take the first token, else `None`
(`isalpha` is modelled as ASCII-alphabetic). -/
def extract_word (text : String) : Option (List Char) :=
  if text = "" then none
  else if (text.trim.toList.map Char.toLower).length = 5 ∧
      (text.trim.toList.map Char.toLower).all Char.isAlpha then
    some (text.trim.toList.map Char.toLower)
  else
    match (findall5 (text.trim.toList.map Char.toLower)).find? fun w =>
        WORDSL.contains w with
    | some w => some w
    | none => (findall5 (text.trim.toList.map Char.toLower)).head?

/-- The class-level solver state of `GameState` (`_constraints`,
`_candidates`, `_guess_num`, `_history`). -/
structure AIState where
  constraints : Constraints
  candidates : List (List Char)
  guess_num : Nat
  history : List (List Char × List Feedback)

/-- The ingestion guard of `enter_word_from_ai`: the previous (word,
feedback) pair is processed only when the last history entry's word
differs from it (or the history is empty) and the feedback has length 5. -/
def shouldIngest (history : List (List Char × List Feedback))
    (word : List Char) (fb : List Feedback) : Bool :=
  (history.isEmpty || !((history.getLast?).map Prod.fst == some word)) &&
    (fb.length == 5)

/-- The ingestion step of `enter_word_from_ai`: when the guard allows,
update the constraints (both the Fibble and the plain branch of the source
call `update(word, feedback)` with the default ignore column) and append
the pair to the history. -/
def ingestStep (cs : Constraints)
    (history : List (List Char × List Feedback)) (word : List Char)
    (fb : List Feedback) : Constraints × List (List Char × List Feedback) :=
  if shouldIngest history word fb then
    (cs.update word fb (-1), history ++ [(word, fb)])
  else (cs, history)

/-- A fresh `Constraints` model rebuilt from the whole history with
`ignore_column` set (the body of the Fibble recovery loop). -/
def buildConstraints (history : List (List Char × List Feedback))
    (ig : Int) : Constraints :=
  history.foldl (fun cs p => cs.update p.1 p.2 ig) Constraints.init

/-- The Fibble lie-recovery scan: try the columns in the given order, each
time rebuilding the model from the entire history with that column ignored
and filtering the vocabulary minus the guessed words; adopt the first
column with a non-empty result. -/
def fibbleRecover (vocab : List (List Char))
    (history : List (List Char × List Feedback))
    (guessed : List (List Char)) :
    List Nat → Option (Nat × Constraints × List (List Char))
  | [] => none
  | col :: rest =>
    if (vocab.filter fun w => (buildConstraints history (col : Int)).matches w
        && !(guessed.contains w)).isEmpty then
      fibbleRecover vocab history guessed rest
    else
      some (col, buildConstraints history (col : Int),
        vocab.filter fun w => (buildConstraints history (col : Int)).matches w
          && !(guessed.contains w))

/-- Candidate filtering plus Fibble recovery (the `if not candidates and
num_lies > 0` block): returns the new constraints, the new candidate list,
and whether a recovery adoption replaced them. -/
def recoveryPhase (numLies : Nat) (vocab : List (List Char))
    (history : List (List Char × List Feedback))
    (guessed : List (List Char)) (cs : Constraints)
    (cands : List (List Char)) : Constraints × List (List Char) × Bool :=
  if cands.isEmpty && decide (0 < numLies) then
    match fibbleRecover vocab history guessed (List.range 5) with
    | some r => (r.2.1, r.2.2, true)
    | none => (cs, cands, false)
  else (cs, cands, false)

/-- The empty-candidate relaxed reset (`if not GameState._candidates:`
refill): the full vocabulary under the current model, guessed words not
excluded here; the flag records that the reset fired. -/
def emptyResetPhase (vocab : List (List Char)) (cs : Constraints)
    (cands : List (List Char)) : List (List Char) × Bool :=
  if cands.isEmpty then (vocab.filter fun w => cs.matches w, true)
  else (cands, false)

/-- The oracle-consultation loop of `enter_word_from_ai`, bounded by
`MAX_LLM_CONTINUOUS_CALLS`.  The oracle is abstracted as a function from
the number of calls already made to its optional reply; the prompt string,
which influences only the oracle, is absorbed into that function (`if
resp:` also treats an empty reply as no reply).  The first extracted word
satisfying the constraints is accepted; on exhaustion the loop returns the
top-scored candidate. -/
def llmLoop (cs : Constraints) (scored : List (List Char))
    (oracle : Nat → Option String) : Nat → Nat → List Char × Nat
  | 0, calls => (scored.headD [], calls)
  | fuel + 1, calls =>
    match oracle calls with
    | none => llmLoop cs scored oracle fuel (calls + 1)
    | some resp =>
      if resp = "" then llmLoop cs scored oracle fuel (calls + 1)
      else
        match extract_word resp with
        | some g =>
          if cs.matches g then (g, calls + 1)
          else llmLoop cs scored oracle fuel (calls + 1)
        | none => llmLoop cs scored oracle fuel (calls + 1)

/-- The candidate-narrowing and guess-choosing tail of
`enter_word_from_ai`, from the candidate filter onwards (`guessed` is the
set of already-entered words, `st` the solver state after ingestion). -/
def solverChoose (vocab : List (List Char)) (numLies : Nat)
    (guessed : List (List Char)) (st : AIState)
    (oracle : Nat → Option String) : List Char × Nat × AIState :=
  let c1 := st.candidates.filter fun w =>
    st.constraints.matches w && !(guessed.contains w)
  let r3 := recoveryPhase numLies vocab st.history guessed
    st.constraints c1
  let st3 : AIState := { st with constraints := r3.1, candidates := r3.2.1 }
  if st3.candidates.length = 1 then (st3.candidates.headD [], 0, st3)
  else
    let r4 := emptyResetPhase vocab st3.constraints st3.candidates
    let st4 : AIState := { st3 with candidates := r4.1 }
    if st4.candidates.isEmpty then
      ((STARTERS.getD (st4.guess_num % STARTERS.length) "").toList, 0, st4)
    else
      let r5 := llmLoop st4.constraints (sortDesc st4.candidates) oracle
        MAX_LLM_CONTINUOUS_CALLS 0
      (r5.1, r5.2, st4)

/-- The decision logic of `GameState.enter_word_from_ai`: returns the
chosen guess, the number of oracle calls made, and the updated solver
state (every path of the source submits the chosen guess through
`enter_word` exactly once and returns the call count).  `vocab` stands for
the global `WORDS`; `wordsEntered` is `self.words`. -/
def enter_word_from_ai (vocab : List (List Char)) (numLies : Nat)
    (wordsEntered : List (List Char × List Feedback)) (st : AIState)
    (oracle : Nat → Option String) : List Char × Nat × AIState :=
  let st1 : AIState := { st with guess_num := st.guess_num + 1 }
  if st1.guess_num = 1 then ((STARTERS.getD 0 "").toList, 0, st1)
  else
    let st2 : AIState :=
      match wordsEntered.getLast? with
      | some p =>
        let r := ingestStep st1.constraints st1.history p.1 p.2
        { st1 with constraints := r.1, history := r.2 }
      | none => st1
    solverChoose vocab numLies (wordsEntered.map Prod.fst) st2 oracle

/-! ## Theorems -/

example :
    calcFeedbackTruthful "slate".toList "crane".toList =
      [Feedback.incorrect, Feedback.incorrect, Feedback.correct,
       Feedback.incorrect, Feedback.correct] := by decide

example :
    calcFeedbackTruthful "ladle".toList "level".toList =
      [Feedback.correct, Feedback.incorrect, Feedback.incorrect,
       Feedback.present, Feedback.present] := by decide

theorem cpCount_eq_tagCounts (c : Char) (l : List (Char × Feedback)) :
    cpCount c l = tagCount c Feedback.correct l + tagCount c Feedback.present l := by
  induction l with
  | nil => rfl
  | cons p rest ih =>
    obtain ⟨a, f⟩ := p
    simp only [cpCount, tagCount, List.countP_cons] at ih ⊢
    cases f <;> by_cases h : a = c <;> (try simp [h]) <;> omega

theorem consumeFirst_cons_pos (c : Char) (rest : List (Option Char)) :
    consumeFirst c (some c :: rest) = some (none :: rest) := by
  simp [consumeFirst]

theorem consumeFirst_cons_neg {c : Char} {o : Option Char} (h : ¬o = some c)
    (rest : List (Option Char)) :
    consumeFirst c (o :: rest) = (consumeFirst c rest).map (o :: ·) := by
  simp [consumeFirst, h]

theorem consumeFirst_eq_none {c : Char} {tl : List (Option Char)} :
    consumeFirst c tl = none ↔ some c ∉ tl := by
  induction tl with
  | nil => simp [consumeFirst]
  | cons o rest ih =>
    by_cases ho : o = some c
    · subst ho; simp [consumeFirst]
    · simp [consumeFirst, ho, ih, Ne.symm ho]

theorem consumeFirst_count {c : Char} {tl tl' : List (Option Char)}
    (h : consumeFirst c tl = some tl') :
    tl'.count (some c) + 1 = tl.count (some c) ∧
    ∀ d : Char, d ≠ c → tl'.count (some d) = tl.count (some d) := by
  induction tl generalizing tl' with
  | nil => simp [consumeFirst] at h
  | cons o rest ih =>
    by_cases ho : o = some c
    · subst ho
      rw [consumeFirst_cons_pos, Option.some.injEq] at h
      subst h
      refine ⟨by simp [List.count_cons], fun d hd => ?_⟩
      simp [List.count_cons, hd, fun h : some c = some d => hd (Option.some.inj h).symm]
    · rw [consumeFirst_cons_neg ho, Option.map_eq_some'] at h
      obtain ⟨tl'', h1, rfl⟩ := h
      obtain ⟨ih1, ih2⟩ := ih h1
      constructor
      · simp only [List.count_cons]
        omega
      · intro d hd
        simp [List.count_cons, ih2 d hd]

theorem pass2_nil (tl : List (Option Char)) : pass2 [] tl = ([], tl) := rfl

theorem pass2_cons_incorrect_some {c : Char} {tl tl' : List (Option Char)}
    (h : consumeFirst c tl = some tl') (rest : List (Char × Feedback)) :
    pass2 ((c, Feedback.incorrect) :: rest) tl =
      ((c, Feedback.present) :: (pass2 rest tl').1, (pass2 rest tl').2) := by
  simp [pass2, h]

theorem pass2_cons_incorrect_none {c : Char} {tl : List (Option Char)}
    (h : consumeFirst c tl = none) (rest : List (Char × Feedback)) :
    pass2 ((c, Feedback.incorrect) :: rest) tl =
      ((c, Feedback.incorrect) :: (pass2 rest tl).1, (pass2 rest tl).2) := by
  simp [pass2, h]

theorem pass2_cons_other {c : Char} {f : Feedback} (h : ¬f = Feedback.incorrect)
    (rest : List (Char × Feedback)) (tl : List (Option Char)) :
    pass2 ((c, f) :: rest) tl = ((c, f) :: (pass2 rest tl).1, (pass2 rest tl).2) := by
  simp [pass2, h]

theorem pass2_map_fst (l : List (Char × Feedback)) (tl : List (Option Char)) :
    (pass2 l tl).1.map Prod.fst = l.map Prod.fst := by
  induction l generalizing tl with
  | nil => rfl
  | cons p rest ih =>
    obtain ⟨c, f⟩ := p
    by_cases hf : f = Feedback.incorrect
    · subst hf
      cases h : consumeFirst c tl with
      | some tl' => rw [pass2_cons_incorrect_some h]; simp [ih]
      | none => rw [pass2_cons_incorrect_none h]; simp [ih]
    · rw [pass2_cons_other hf]; simp [ih]

theorem pass2_forall2 (l : List (Char × Feedback)) (tl : List (Option Char)) :
    List.Forall₂ (fun pin pout => pin.1 = pout.1 ∧
        (pout.2 = pin.2 ∨ (pin.2 = Feedback.incorrect ∧ pout.2 = Feedback.present)))
      l (pass2 l tl).1 := by
  induction l generalizing tl with
  | nil => exact List.Forall₂.nil
  | cons p rest ih =>
    obtain ⟨c, f⟩ := p
    by_cases hf : f = Feedback.incorrect
    · subst hf
      cases h : consumeFirst c tl with
      | some tl' =>
        rw [pass2_cons_incorrect_some h]
        exact List.Forall₂.cons ⟨rfl, Or.inr ⟨rfl, rfl⟩⟩ (ih tl')
      | none =>
        rw [pass2_cons_incorrect_none h]
        exact List.Forall₂.cons ⟨rfl, Or.inl rfl⟩ (ih tl)
    · rw [pass2_cons_other hf]
      exact List.Forall₂.cons ⟨rfl, Or.inl rfl⟩ (ih tl)

theorem pass2_present_count (c : Char) (l : List (Char × Feedback))
    (tl : List (Option Char)) (hnp : ∀ p ∈ l, p.2 ≠ Feedback.present) :
    tl.count (some c) =
      (pass2 l tl).2.count (some c) + tagCount c Feedback.present (pass2 l tl).1 := by
  induction l generalizing tl with
  | nil => simp [pass2_nil, tagCount]
  | cons p rest ih =>
    obtain ⟨a, f⟩ := p
    have hrest : ∀ p ∈ rest, p.2 ≠ Feedback.present := fun p hp =>
      hnp p (List.mem_cons_of_mem _ hp)
    by_cases hf : f = Feedback.incorrect
    · subst hf
      cases h : consumeFirst a tl with
      | some tl' =>
        rw [pass2_cons_incorrect_some h]
        obtain ⟨h1, h2⟩ := consumeFirst_count h
        have hih := ih tl' hrest
        simp only [tagCount, List.countP_cons] at hih ⊢
        by_cases hac : a = c
        · subst hac; simp; omega
        · have hpres := h2 c (fun hcc => hac hcc.symm)
          simp [hac]
          omega
      | none =>
        rw [pass2_cons_incorrect_none h]
        have hih := ih tl hrest
        simp only [tagCount, List.countP_cons] at hih ⊢
        simp
        omega
    · rw [pass2_cons_other hf]
      have hfp : f ≠ Feedback.present := hnp (a, f) (List.mem_cons_self _ _)
      have hih := ih tl hrest
      simp only [tagCount, List.countP_cons] at hih ⊢
      simp [hfp]
      omega

theorem pass2_count_le (c : Char) (l : List (Char × Feedback))
    (tl : List (Option Char)) :
    (pass2 l tl).2.count (some c) ≤ tl.count (some c) := by
  induction l generalizing tl with
  | nil => simp [pass2_nil]
  | cons p rest ih =>
    obtain ⟨a, f⟩ := p
    by_cases hf : f = Feedback.incorrect
    · subst hf
      cases h : consumeFirst a tl with
      | some tl' =>
        rw [pass2_cons_incorrect_some h]
        obtain ⟨h1, h2⟩ := consumeFirst_count h
        have hih := ih tl'
        by_cases hac : a = c
        · subst hac; simp only; omega
        · have := h2 c (fun hcc => hac hcc.symm)
          simp only
          omega
      | none => rw [pass2_cons_incorrect_none h]; exact ih tl
    · rw [pass2_cons_other hf]; exact ih tl

theorem pass2_incorrect_exhaust {c : Char} {l : List (Char × Feedback)}
    {tl : List (Option Char)} (h : (c, Feedback.incorrect) ∈ (pass2 l tl).1) :
    (pass2 l tl).2.count (some c) = 0 := by
  induction l generalizing tl with
  | nil => simp [pass2_nil] at h
  | cons p rest ih =>
    obtain ⟨a, f⟩ := p
    by_cases hf : f = Feedback.incorrect
    · subst hf
      cases hc : consumeFirst a tl with
      | some tl' =>
        rw [pass2_cons_incorrect_some hc] at h ⊢
        rcases List.mem_cons.mp h with heq | hmem
        · exact absurd (congrArg Prod.snd heq) (by simp)
        · exact ih hmem
      | none =>
        rw [pass2_cons_incorrect_none hc] at h ⊢
        rcases List.mem_cons.mp h with heq | hmem
        · have hca : c = a := congrArg Prod.fst heq
          subst hca
          have hnot : some c ∉ tl := consumeFirst_eq_none.mp hc
          have h0 : tl.count (some c) = 0 := List.count_eq_zero.mpr hnot
          have hle := pass2_count_le c rest tl
          show (pass2 rest tl).2.count (some c) = 0
          omega
        · exact ih hmem
    · rw [pass2_cons_other hf] at h ⊢
      rcases List.mem_cons.mp h with heq | hmem
      · exact absurd (congrArg Prod.snd heq).symm hf
      · exact ih hmem

theorem pass1_no_present (g t : List Char) :
    ∀ p ∈ pass1 g t, p.2 ≠ Feedback.present := by
  intro p hp
  simp only [pass1, List.mem_map] at hp
  obtain ⟨q, -, rfl⟩ := hp
  by_cases h : q.1 = q.2 <;> simp [h]

theorem pass1_count (c : Char) (g t : List Char) :
    (pass1tl g t).count (some c) + tagCount c Feedback.correct (pass1 g t) =
      (g.zip t).countP fun p => p.2 == c := by
  rw [pass1, pass1tl]
  induction g.zip t with
  | nil => simp [tagCount]
  | cons p rest ih =>
    obtain ⟨a, b⟩ := p
    rw [tagCount] at ih ⊢
    rw [List.map_cons, List.map_cons, List.count_cons, List.countP_cons,
      List.countP_cons]
    have hrw : ∀ x y : Nat,
        (rest.map fun p => if p.1 = p.2 then none else some p.2).count (some c) + x
          + ((rest.map fun p =>
              (p.1, if p.1 = p.2 then Feedback.correct else Feedback.incorrect)).countP
                (fun p => p.1 == c && p.2 == Feedback.correct) + y)
          = (rest.countP fun p => p.2 == c) + (x + y) := by
      intro x y
      omega
    rw [hrw]
    congr 1
    by_cases hab : a = b
    · subst hab
      by_cases hac : a = c <;> simp [hac]
    · by_cases hbc : b = c
      · by_cases hac : a = c <;> simp [hab, hbc, hac]
      · simp [hab, hbc]

theorem zip_snd_countP (c : Char) (g t : List Char) (h : g.length = t.length) :
    ((g.zip t).countP fun p => p.2 == c) = t.count c := by
  induction g generalizing t with
  | nil =>
    cases t with
    | nil => simp
    | cons b t' => simp at h
  | cons a g' ih =>
    cases t with
    | nil => simp at h
    | cons b t' =>
      simp only [List.zip_cons_cons, List.countP_cons, List.count_cons]
      rw [ih t' (by simpa using h)]

theorem forall2_countP_eq {α β : Type} {R : α → β → Prop} {l₁ : List α}
    {l₂ : List β} (h : List.Forall₂ R l₁ l₂) (p : α → Bool) (q : β → Bool)
    (hpq : ∀ a b, R a b → p a = q b) : l₁.countP p = l₂.countP q := by
  induction h with
  | nil => rfl
  | cons hr _ ih => simp [List.countP_cons, hpq _ _ hr, ih]

theorem forall2_trans {α β γ : Type} {R : α → β → Prop} {S : β → γ → Prop}
    {l₁ : List α} {l₂ : List β} {l₃ : List γ}
    (h₁ : List.Forall₂ R l₁ l₂) (h₂ : List.Forall₂ S l₂ l₃) :
    List.Forall₂ (fun a c => ∃ b, R a b ∧ S b c) l₁ l₃ := by
  induction h₁ generalizing l₃ with
  | nil => cases h₂; exact .nil
  | cons hr _ ih =>
    cases h₂ with
    | cons hs hsrest => exact .cons ⟨_, hr, hs⟩ (ih hsrest)

theorem pass1_forall2 (g t : List Char) :
    List.Forall₂ (fun pt pf => pf.1 = pt.1 ∧
        (pf.2 = Feedback.correct ↔ pt.1 = pt.2)) (g.zip t) (pass1 g t) := by
  rw [pass1, List.forall₂_map_right_iff]
  rw [List.forall₂_same]
  intro p _
  by_cases h : p.1 = p.2 <;> simp [h]

theorem feedbackPairs_forall2 (g t : List Char) :
    List.Forall₂ (fun pt pout => pout.1 = pt.1 ∧
        (pout.2 = Feedback.correct ↔ pt.1 = pt.2)) (g.zip t) (feedbackPairs g t) := by
  have h := forall2_trans (pass1_forall2 g t)
    (pass2_forall2 (pass1 g t) (pass1tl g t))
  refine h.imp ?_
  rintro pt pout ⟨pf, ⟨hfst, hiff⟩, hfst2, htag⟩
  refine ⟨hfst2 ▸ hfst, ?_⟩
  rcases htag with heq | ⟨hinc, hpres⟩
  · rw [heq]; exact hiff
  · rw [hpres]
    constructor
    · intro hc; exact absurd hc (by simp)
    · intro hc
      have := hiff.mpr hc
      rw [hinc] at this
      exact absurd this (by simp)

theorem feedbackPairs_length (g t : List Char) :
    (feedbackPairs g t).length = (g.zip t).length :=
  (feedbackPairs_forall2 g t).length_eq.symm

theorem calcFeedbackCore_length (g t : List Char) :
    (calcFeedbackCore g t).length = min g.length t.length := by
  rw [calcFeedbackCore, List.length_map, feedbackPairs_length, List.length_zip]

theorem feedbackPairs_map_fst (g t : List Char) (h : g.length ≤ t.length) :
    (feedbackPairs g t).map Prod.fst = g := by
  rw [feedbackPairs, pass2_map_fst, pass1, List.map_map]
  have hcomp : (Prod.fst ∘ fun p : Char × Char =>
      (p.1, if p.1 = p.2 then Feedback.correct else Feedback.incorrect)) = Prod.fst :=
    rfl
  rw [hcomp, List.map_fst_zip _ _ h]

theorem zip_calcFeedbackCore (g t : List Char) (h : g.length = t.length) :
    g.zip (calcFeedbackCore g t) = feedbackPairs g t := by
  rw [calcFeedbackCore]
  nth_rewrite 1 [← feedbackPairs_map_fst g t h.le]
  rw [List.zip_map']
  simp

theorem cpCount_le (c : Char) (g t : List Char) (h : g.length = t.length) :
    cpCount c (feedbackPairs g t) ≤ t.count c := by
  have hco : tagCount c Feedback.correct (pass1 g t)
      = tagCount c Feedback.correct (feedbackPairs g t) := by
    refine forall2_countP_eq (pass2_forall2 (pass1 g t) (pass1tl g t)) _ _ ?_
    rintro pin pout ⟨hfst, htag⟩
    rcases htag with heq | ⟨hinc, hpres⟩
    · rw [hfst, heq]
    · rw [hfst, hinc, hpres]
      have h1 : (Feedback.incorrect == Feedback.correct) = false := by decide
      have h2 : (Feedback.present == Feedback.correct) = false := by decide
      rw [h1, h2]
  have hpr := pass2_present_count c (pass1 g t) (pass1tl g t) (pass1_no_present g t)
  have hp1 := pass1_count c g t
  have hz := zip_snd_countP c g t h
  have hcp := cpCount_eq_tagCounts c (feedbackPairs g t)
  rw [feedbackPairs] at hcp hco ⊢
  omega

theorem cpCount_exact {c : Char} {g t : List Char} (h : g.length = t.length)
    (hmem : (c, Feedback.incorrect) ∈ feedbackPairs g t) :
    cpCount c (feedbackPairs g t) = t.count c := by
  have hco : tagCount c Feedback.correct (pass1 g t)
      = tagCount c Feedback.correct (feedbackPairs g t) := by
    refine forall2_countP_eq (pass2_forall2 (pass1 g t) (pass1tl g t)) _ _ ?_
    rintro pin pout ⟨hfst, htag⟩
    rcases htag with heq | ⟨hinc, hpres⟩
    · rw [hfst, heq]
    · rw [hfst, hinc, hpres]
      have h1 : (Feedback.incorrect == Feedback.correct) = false := by decide
      have h2 : (Feedback.present == Feedback.correct) = false := by decide
      rw [h1, h2]
  have hpr := pass2_present_count c (pass1 g t) (pass1tl g t) (pass1_no_present g t)
  have hp1 := pass1_count c g t
  have hz := zip_snd_countP c g t h
  have hcp := cpCount_eq_tagCounts c (feedbackPairs g t)
  rw [feedbackPairs] at hmem
  have hex := pass2_incorrect_exhaust hmem
  rw [feedbackPairs] at hcp hco ⊢
  omega

theorem calcFeedbackCore_correct_iff (g t : List Char) (h : g.length = t.length)
    (i : Nat) (hi : i < g.length) :
    ((calcFeedbackCore g t).getD i Feedback.incorrect = Feedback.correct ↔
      g.getD i 'a' = t.getD i 'a') := by
  have hlen := (feedbackPairs_forall2 g t).length_eq
  have hzlen : (g.zip t).length = g.length := by
    rw [List.length_zip]
    omega
  have hit : i < t.length := by omega
  have hiz : i < (g.zip t).length := by omega
  have hif : i < (feedbackPairs g t).length := by omega
  have hR := (feedbackPairs_forall2 g t).get hiz hif
  have hzip : (g.zip t).get ⟨i, hiz⟩ = (g.get ⟨i, hi⟩, t.get ⟨i, hit⟩) := by
    simp
  rw [hzip] at hR
  obtain ⟨hfst, hiff⟩ := hR
  have hmap : (calcFeedbackCore g t).getD i Feedback.incorrect =
      ((feedbackPairs g t).get ⟨i, hif⟩).2 := by
    rw [calcFeedbackCore, List.getD_eq_getElem?_getD, List.getElem?_map,
      List.getElem?_eq_getElem hif]
    simp
  have hgd1 : g.getD i 'a' = g.get ⟨i, hi⟩ := by
    rw [List.getD_eq_getElem?_getD, List.getElem?_eq_getElem hi]
    simp
  have hgd2 : t.getD i 'a' = t.get ⟨i, hit⟩ := by
    rw [List.getD_eq_getElem?_getD, List.getElem?_eq_getElem hit]
    simp
  rw [hmap, hgd1, hgd2]
  exact hiff

/-- Claim C1: for every 5-letter lowercase guess and target, the truthful
feedback of `GameState._calculate_feedback` (no lie applied) has length
exactly 5; a position is tagged `correct` exactly when the guess letter
equals the target letter at that position; and for a target containing
`t.count c` occurrences of a letter `c`, the total number of
`correct`/`present` tags assigned to occurrences of `c` in the guess never
exceeds that count (two-pass consumption semantics). -/
theorem feedback_engine_score_properties (g t : List Char) (hg5 : g.length = 5)
    (ht5 : t.length = 5) (hg : g.map Char.toLower = g)
    (ht : t.map Char.toLower = t) :
    (calcFeedbackTruthful g t).length = 5 ∧
    (∀ i, i < 5 →
      ((calcFeedbackTruthful g t).getD i Feedback.incorrect = Feedback.correct ↔
        g.getD i 'a' = t.getD i 'a')) ∧
    (∀ c : Char, cpCount c (g.zip (calcFeedbackTruthful g t)) ≤ t.count c) := by
  have hcalc : calcFeedbackTruthful g t = calcFeedbackCore g t := by
    rw [calcFeedbackTruthful, hg, ht]
  rw [hcalc]
  have hlen : g.length = t.length := by omega
  refine ⟨?_, ?_, ?_⟩
  · rw [calcFeedbackCore_length]
    omega
  · intro i hilt
    exact calcFeedbackCore_correct_iff g t hlen i (by omega)
  · intro c
    rw [zip_calcFeedbackCore g t hlen]
    exact cpCount_le c g t hlen

/-- Witness for C1 at the spec's own scenario (guess `slate`, target
`crane`). -/
theorem feedback_engine_score_properties_witness :
    ("slate".toList.length = 5 ∧ "crane".toList.length = 5) ∧
    (calcFeedbackTruthful "slate".toList "crane".toList).length = 5 ∧
    (∀ i, i < 5 →
      ((calcFeedbackTruthful "slate".toList "crane".toList).getD i
          Feedback.incorrect = Feedback.correct ↔
        "slate".toList.getD i 'a' = "crane".toList.getD i 'a')) ∧
    (∀ c : Char,
      cpCount c ("slate".toList.zip
        (calcFeedbackTruthful "slate".toList "crane".toList)) ≤
        "crane".toList.count c) :=
  ⟨⟨by decide, by decide⟩,
    feedback_engine_score_properties "slate".toList "crane".toList
      (by decide) (by decide) (by decide) (by decide)⟩

theorem lookup_mem {m : List (Char × Nat)} {k : Char} {v : Nat}
    (h : m.lookup k = some v) : (k, v) ∈ m := by
  induction m with
  | nil => simp at h
  | cons p rest ih =>
    obtain ⟨k', v'⟩ := p
    rw [List.lookup_cons] at h
    by_cases hk : k = k'
    · subst hk
      simp at h
      subst h
      exact List.mem_cons_self _ _
    · have hbeq : (k == k') = false := beq_eq_false_iff_ne.mpr hk
      rw [hbeq] at h
      exact List.mem_cons_of_mem _ (ih h)

theorem mem_alistSet {m : List (Char × Nat)} {k : Char} {v : Nat}
    {p : Char × Nat} (h : p ∈ alistSet m k v) : p = (k, v) ∨ p ∈ m := by
  induction m with
  | nil => simpa [alistSet] using h
  | cons q rest ih =>
    obtain ⟨k', v'⟩ := q
    rw [alistSet] at h
    by_cases hk : k' = k
    · rw [if_pos hk] at h
      rcases List.mem_cons.mp h with heq | hmem
      · exact Or.inl heq
      · exact Or.inr (List.mem_cons_of_mem _ hmem)
    · rw [if_neg hk] at h
      rcases List.mem_cons.mp h with heq | hmem
      · exact Or.inr (heq ▸ List.mem_cons_self _ _)
      · rcases ih hmem with h1 | h2
        · exact Or.inl h1
        · exact Or.inr (List.mem_cons_of_mem _ h2)

theorem lookup_alistSet_self (m : List (Char × Nat)) (k : Char) (v : Nat) :
    (alistSet m k v).lookup k = some v := by
  induction m with
  | nil => simp [alistSet, List.lookup_cons]
  | cons q rest ih =>
    obtain ⟨k', v'⟩ := q
    rw [alistSet]
    by_cases hk : k' = k
    · rw [if_pos hk, List.lookup_cons]
      simp
    · rw [if_neg hk, List.lookup_cons]
      have hbeq : (k == k') = false := beq_eq_false_iff_ne.mpr (fun h => hk h.symm)
      rw [hbeq]
      exact ih

theorem lookup_alistSet_ne (m : List (Char × Nat)) {k k' : Char} (v : Nat)
    (h : k' ≠ k) : (alistSet m k v).lookup k' = m.lookup k' := by
  induction m with
  | nil =>
    simp [alistSet, List.lookup_cons, beq_eq_false_iff_ne.mpr h]
  | cons q rest ih =>
    obtain ⟨k'', v''⟩ := q
    rw [alistSet]
    by_cases hk : k'' = k
    · subst hk
      rw [if_pos rfl, List.lookup_cons, List.lookup_cons,
        beq_eq_false_iff_ne.mpr h]
    · rw [if_neg hk, List.lookup_cons, List.lookup_cons]
      by_cases hkk : k' = k''
      · subst hkk
        simp
      · rw [beq_eq_false_iff_ne.mpr hkk]
        exact ih

theorem foldl_preserve {α β : Type} {P : α → Prop} {step : α → β → α}
    {l : List β} (h : ∀ p ∈ l, ∀ a, P a → P (step a p)) :
    ∀ a, P a → P (l.foldl step a) := by
  induction l with
  | nil => intro a ha; exact ha
  | cons x xs ih =>
    intro a ha
    exact ih (fun p hp => h p (List.mem_cons_of_mem _ hp)) _
      (h x (List.mem_cons_self _ _) a ha)

theorem length_filter_enumFrom {α : Type} (q : α → Bool) (l : List α) :
    ∀ n, ((l.enumFrom n).filter fun p => q p.2).length = l.countP q := by
  induction l with
  | nil => intro n; rfl
  | cons x xs ih =>
    intro n
    rw [List.enumFrom, List.filter_cons, List.countP_cons]
    by_cases hq : q x = true <;> simp [hq, ih (n + 1)]

theorem confirmedCount_eq_cpCount (w : List Char) (fb : List Feedback)
    (c : Char) : confirmedCount w fb (-1) c = cpCount c (w.zip fb) := by
  rw [confirmedCount, cpCount]
  have hcong : ∀ p ∈ (w.zip fb).enum,
      (decide ((p.1 : Int) ≠ (-1 : Int)) && (p.2.1 == c)
        && !(p.2.2 == Feedback.incorrect))
      = ((fun q : Char × Feedback => q.1 == c && !(q.2 == Feedback.incorrect)) p.2) := by
    intro p _
    have hne : ((p.1 : Int) ≠ (-1 : Int)) := by omega
    simp [hne]
  rw [List.filter_congr hcong, List.enum]
  exact length_filter_enumFrom
    (fun q : Char × Feedback => q.1 == c && !(q.2 == Feedback.incorrect))
    (w.zip fb) 0

theorem sound_init (T : List Char) : Sound Constraints.init T := by
  refine ⟨?_, ?_, ?_, ?_⟩ <;> simp [Constraints.init]

theorem matchesCore_of_sound {cs : Constraints} {T : List Char}
    (h : Sound cs T) : matchesCore cs T = true := by
  obtain ⟨h1, h2, h3, h4⟩ := h
  rw [matchesCore]
  simp only [Bool.and_eq_true, List.all_eq_true]
  refine ⟨⟨⟨?_, ?_⟩, ?_⟩, ?_⟩
  · intro i _
    cases hcp : cs.correct_pos i with
    | none => rfl
    | some c => simpa using h1 i c hcp
  · intro i _
    simpa using h2 i
  · intro p hp
    simpa using h3 p hp
  · intro p hp
    simpa using h4 p hp

theorem feedbackPairs_enum_facts {w T : List Char} (hlen : w.length = T.length)
    {i : Nat} {c : Char} {f : Feedback}
    (hmem : (i, (c, f)) ∈ (feedbackPairs w T).enum) :
    i < w.length ∧ (c, f) ∈ feedbackPairs w T ∧
    (f = Feedback.correct ↔ T.getD i 'a' = c) := by
  rw [List.mem_enum_iff_getElem?] at hmem
  have hmem' : (c, f) ∈ feedbackPairs w T := by
    exact List.getElem?_mem hmem
  have hif : i < (feedbackPairs w T).length := by
    rcases List.getElem?_eq_some.mp hmem with ⟨hlt, -⟩
    exact hlt
  obtain ⟨hlt, hget⟩ := List.getElem?_eq_some.mp hmem
  have hlenf := (feedbackPairs_forall2 w T).length_eq
  have hzlen : (w.zip T).length = w.length := by
    rw [List.length_zip]
    omega
  have hiw : i < w.length := by omega
  have hit : i < T.length := by omega
  have hiz : i < (w.zip T).length := by omega
  have hR := (feedbackPairs_forall2 w T).get hiz hif
  have hzip : (w.zip T).get ⟨i, hiz⟩ = (w.get ⟨i, hiw⟩, T.get ⟨i, hit⟩) := by
    simp
  rw [hzip] at hR
  have hgetf : (feedbackPairs w T).get ⟨i, hif⟩ = (c, f) := by
    simpa using hget
  rw [hgetf] at hR
  obtain ⟨hfst, hiff⟩ := hR
  have hgd : T.getD i 'a' = T.get ⟨i, hit⟩ := by
    rw [List.getD_eq_getElem?_getD, List.getElem?_eq_getElem hit]
    simp
  refine ⟨hiw, hmem', ?_⟩
  rw [hgd]
  simp only at hfst
  rw [hiff, hfst]
  exact ⟨fun h => h.symm, fun h => h.symm⟩

theorem updatePins_sound {T w : List Char} (hw : w.length = 5)
    (hT : T.length = 5) (p : Nat × (Char × Feedback))
    (hp : p ∈ (w.zip (calcFeedbackCore w T)).enum) (acc : Constraints)
    (hs : Sound acc T) : Sound (updatePins (-1) acc p) T := by
  have hlen : w.length = T.length := by omega
  rw [zip_calcFeedbackCore w T hlen] at hp
  obtain ⟨i, c, f⟩ := p
  obtain ⟨hiw, hmem, hiff⟩ := feedbackPairs_enum_facts hlen hp
  obtain ⟨h1, h2, h3, h4⟩ := hs
  rw [updatePins]
  have hig : ¬((i : Int) = (-1 : Int)) := by omega
  rw [if_neg hig]
  cases f with
  | correct =>
    refine ⟨?_, h2, h3, h4⟩
    intro j c' hj
    simp only at hj
    by_cases hji : (j : Nat) = i
    · rw [if_pos hji] at hj
      obtain rfl := Option.some.inj hj
      rw [hji]
      exact hiff.mp rfl
    · rw [if_neg hji] at hj
      exact h1 j c' hj
  | present =>
    refine ⟨h1, ?_, h3, h4⟩
    intro j
    simp only
    by_cases hji : (j : Nat) = i
    · rw [if_pos hji, List.mem_insert_iff]
      push_neg
      refine ⟨?_, h2 j⟩
      rw [hji]
      intro hc
      have := hiff.mpr hc
      simp at this
    · rw [if_neg hji]
      exact h2 j
  | incorrect => exact ⟨h1, h2, h3, h4⟩

theorem updateMins_sound {T w : List Char} (hw : w.length = 5)
    (hT : T.length = 5) (p : Nat × (Char × Feedback))
    (hp : p ∈ (w.zip (calcFeedbackCore w T)).enum) (acc : Constraints)
    (hs : Sound acc T) :
    Sound (updateMins (confirmedCount w (calcFeedbackCore w T) (-1)) (-1)
      acc p) T := by
  have hlen : w.length = T.length := by omega
  obtain ⟨i, c, f⟩ := p
  obtain ⟨h1, h2, h3, h4⟩ := hs
  rw [updateMins]
  by_cases hcond : ((i : Int) = (-1 : Int) ∨ f = Feedback.incorrect)
  · rw [if_pos hcond]
    exact ⟨h1, h2, h3, h4⟩
  · rw [if_neg hcond]
    refine ⟨h1, h2, ?_, h4⟩
    intro q hq
    simp only at hq
    rcases mem_alistSet hq with rfl | hqm
    · simp only
      have hconf : confirmedCount w (calcFeedbackCore w T) (-1) c ≤ T.count c := by
        rw [confirmedCount_eq_cpCount, zip_calcFeedbackCore w T hlen]
        exact cpCount_le c w T hlen
      have hold : (acc.min_count.lookup c).getD 0 ≤ T.count c := by
        cases hl : acc.min_count.lookup c with
        | none => simp
        | some v => simpa using h3 (c, v) (lookup_mem hl)
      exact max_le hold hconf
    · exact h3 q hqm

theorem updateMaxes_sound {T w : List Char} (hw : w.length = 5)
    (hT : T.length = 5) (p : Nat × (Char × Feedback))
    (hp : p ∈ (w.zip (calcFeedbackCore w T)).enum) (acc : Constraints)
    (hs : Sound acc T) :
    Sound (updateMaxes (confirmedCount w (calcFeedbackCore w T) (-1)) (-1)
      acc p) T := by
  have hlen : w.length = T.length := by omega
  have hp' := hp
  rw [zip_calcFeedbackCore w T hlen] at hp'
  obtain ⟨i, c, f⟩ := p
  obtain ⟨hiw, hmem, hiff⟩ := feedbackPairs_enum_facts hlen hp'
  obtain ⟨h1, h2, h3, h4⟩ := hs
  rw [updateMaxes]
  have hig : ¬((i : Int) = (-1 : Int)) := by omega
  rw [if_neg hig]
  by_cases hf : f = Feedback.incorrect
  · rw [if_pos hf]
    subst hf
    have hconf : confirmedCount w (calcFeedbackCore w T) (-1) c = T.count c := by
      rw [confirmedCount_eq_cpCount, zip_calcFeedbackCore w T hlen]
      exact cpCount_exact hlen hmem
    have hmax : ∀ q ∈ alistSet acc.max_count c
        (confirmedCount w (calcFeedbackCore w T) (-1) c), T.count q.1 ≤ q.2 := by
      intro q hq
      rcases mem_alistSet hq with rfl | hqm
      · simp only
        rw [hconf]
      · exact h4 q hqm
    by_cases hc0 : confirmedCount w (calcFeedbackCore w T) (-1) c = 0
    · rw [if_pos hc0]
      refine ⟨h1, ?_, h3, hmax⟩
      intro j
      simp only
      have hig2 : (((j : Nat) : Int) ≠ (-1 : Int)) := by omega
      rw [if_pos hig2, List.mem_insert_iff]
      push_neg
      refine ⟨?_, h2 j⟩
      have hTc : T.count c = 0 := by omega
      have hcnot : c ∉ T := List.count_eq_zero.mp hTc
      have hjT : (j : Nat) < T.length := by
        have := j.isLt
        omega
      have hmemT : T.getD (j : Nat) 'a' ∈ T := by
        rw [List.getD_eq_getElem?_getD, List.getElem?_eq_getElem hjT]
        exact List.getElem_mem hjT
      intro heq
      rw [heq] at hmemT
      exact hcnot hmemT
    · rw [if_neg hc0]
      exact ⟨h1, h2, h3, hmax⟩
  · rw [if_neg hf]
    exact ⟨h1, h2, h3, h4⟩

theorem sound_update {cs : Constraints} {T w : List Char} (hw : w.length = 5)
    (hT : T.length = 5) (hs : Sound cs T) :
    Sound (updateCore cs w (calcFeedbackCore w T) (-1)) T := by
  unfold updateCore
  exact foldl_preserve (fun p hp acc ha => updateMaxes_sound hw hT p hp acc ha) _
    (foldl_preserve (fun p hp acc ha => updateMins_sound hw hT p hp acc ha) _
      (foldl_preserve (fun p hp acc ha => updatePins_sound hw hT p hp acc ha) _ hs))

theorem wordsPart1_shape :
    (wordsPart1.all fun s => s.length == 5 && s.toList.all Char.isAlpha) = true := by
  rfl

theorem wordsPart2_shape :
    (wordsPart2.all fun s => s.length == 5 && s.toList.all Char.isAlpha) = true := by
  rfl

theorem wordsPart3_shape :
    (wordsPart3.all fun s => s.length == 5 && s.toList.all Char.isAlpha) = true := by
  rfl

theorem wordsPart4_shape :
    (wordsPart4.all fun s => s.length == 5 && s.toList.all Char.isAlpha) = true := by
  rfl

theorem wordsPart5_shape :
    (wordsPart5.all fun s => s.length == 5 && s.toList.all Char.isAlpha) = true := by
  rfl

theorem wordsPart6_shape :
    (wordsPart6.all fun s => s.length == 5 && s.toList.all Char.isAlpha) = true := by
  rfl

theorem wordsPart7_shape :
    (wordsPart7.all fun s => s.length == 5 && s.toList.all Char.isAlpha) = true := by
  rfl

theorem wordsPart8_shape :
    (wordsPart8.all fun s => s.length == 5 && s.toList.all Char.isAlpha) = true := by
  rfl

theorem wordsPart9_shape :
    (wordsPart9.all fun s => s.length == 5 && s.toList.all Char.isAlpha) = true := by
  rfl

theorem wordsPart10_shape :
    (wordsPart10.all fun s => s.length == 5 && s.toList.all Char.isAlpha) = true := by
  rfl

theorem wordsPart11_shape :
    (wordsPart11.all fun s => s.length == 5 && s.toList.all Char.isAlpha) = true := by
  rfl

theorem wordsPart12_shape :
    (wordsPart12.all fun s => s.length == 5 && s.toList.all Char.isAlpha) = true := by
  rfl

theorem wordsPart13_shape :
    (wordsPart13.all fun s => s.length == 5 && s.toList.all Char.isAlpha) = true := by
  rfl

theorem wordsPart14_shape :
    (wordsPart14.all fun s => s.length == 5 && s.toList.all Char.isAlpha) = true := by
  rfl

theorem wordsPart15_shape :
    (wordsPart15.all fun s => s.length == 5 && s.toList.all Char.isAlpha) = true := by
  rfl

theorem wordsPart16_shape :
    (wordsPart16.all fun s => s.length == 5 && s.toList.all Char.isAlpha) = true := by
  rfl

theorem wordsPart17_shape :
    (wordsPart17.all fun s => s.length == 5 && s.toList.all Char.isAlpha) = true := by
  rfl

theorem wordsPart18_shape :
    (wordsPart18.all fun s => s.length == 5 && s.toList.all Char.isAlpha) = true := by
  rfl

theorem wordsPart19_shape :
    (wordsPart19.all fun s => s.length == 5 && s.toList.all Char.isAlpha) = true := by
  rfl

theorem words_all_shape :
    (WORDS.all fun s => s.length == 5 && s.toList.all Char.isAlpha) = true := by
  rw [WORDS]
  simp only [List.all_append, Bool.and_eq_true]
  exact ⟨⟨⟨⟨⟨⟨⟨⟨⟨⟨⟨⟨⟨⟨⟨⟨⟨⟨wordsPart1_shape,
    wordsPart2_shape⟩,
    wordsPart3_shape⟩,
    wordsPart4_shape⟩,
    wordsPart5_shape⟩,
    wordsPart6_shape⟩,
    wordsPart7_shape⟩,
    wordsPart8_shape⟩,
    wordsPart9_shape⟩,
    wordsPart10_shape⟩,
    wordsPart11_shape⟩,
    wordsPart12_shape⟩,
    wordsPart13_shape⟩,
    wordsPart14_shape⟩,
    wordsPart15_shape⟩,
    wordsPart16_shape⟩,
    wordsPart17_shape⟩,
    wordsPart18_shape⟩,
    wordsPart19_shape⟩

theorem wordsl_shape : ∀ w ∈ WORDSL, w.length = 5 ∧ w.all Char.isAlpha = true := by
  intro w hw
  rw [WORDSL] at hw
  obtain ⟨s, hs, rfl⟩ := List.mem_map.mp hw
  have hb := List.all_eq_true.mp words_all_shape s hs
  rw [Bool.and_eq_true] at hb
  obtain ⟨h1, h2⟩ := hb
  constructor
  · exact eq_of_beq h1
  · exact h2

theorem wordsl_length_five : ∀ w ∈ WORDSL, w.length = 5 :=
  fun w hw => (wordsl_shape w hw).1

/-- Claim C2: a `Constraints` model built by applying `update`, in order, to
a complete truthful history of (guess, feedback) pairs for a target `T`
(every feedback computed by `_calculate_feedback` with no lie,
`ignore_column` left at its default `-1`) satisfies `matches T = true`, for
every target `T` in the vocabulary and every sequence of 5-letter
guesses. -/
theorem constraints_roundtrip (T : List Char) (hT : T ∈ WORDSL)
    (gs : List (List Char)) (hgs : ∀ g ∈ gs, g.length = 5) :
    ((gs.foldl (fun cs g => cs.update g (calcFeedbackTruthful g T) (-1))
      Constraints.init).matches T) = true := by
  have hT5 : T.length = 5 := wordsl_length_five T hT
  rw [Constraints.matches]
  have hTL : (T.map Char.toLower).length = 5 := by
    rw [List.length_map]
    exact hT5
  have hstep : ∀ g ∈ gs, ∀ cs, Sound cs (T.map Char.toLower) →
      Sound (cs.update g (calcFeedbackTruthful g T) (-1))
        (T.map Char.toLower) := by
    intro g hg cs hscs
    rw [Constraints.update, calcFeedbackTruthful]
    refine sound_update ?_ hTL hscs
    rw [List.length_map]
    exact hgs g hg
  exact matchesCore_of_sound
    (foldl_preserve hstep Constraints.init (sound_init _))

/-- Witness for C2: the truthful history [`slate`] for target `aback`. -/
theorem constraints_roundtrip_witness :
    ("aback".toList ∈ WORDSL ∧ (∀ g ∈ ["slate".toList], g.length = 5)) ∧
    ((([("slate".toList)]).foldl
      (fun cs g => cs.update g (calcFeedbackTruthful g "aback".toList) (-1))
      Constraints.init).matches "aback".toList) = true :=
  ⟨⟨by decide, by decide⟩,
    constraints_roundtrip "aback".toList (by decide) [("slate".toList)]
      (by decide)⟩

theorem foldl_establish {α β : Type} {P : α → Prop} {step : α → β → α} :
    ∀ {l : List β} {q : β}, q ∈ l → (∀ a, P (step a q)) →
      (∀ p ∈ l, ∀ a, P a → P (step a p)) → ∀ a, P (l.foldl step a) := by
  intro l
  induction l with
  | nil => intro q hq; cases hq
  | cons x xs ih =>
    intro q hq hest hpres a
    rcases List.mem_cons.mp hq with rfl | hmem
    · exact foldl_preserve (fun p hp => hpres p (List.mem_cons_of_mem _ hp)) _
        (hest a)
    · exact ih hmem hest (fun p hp => hpres p (List.mem_cons_of_mem _ hp))
        (step a x)

theorem foldl_rel {α β : Type} {R : α → α → Prop} (hrefl : ∀ a, R a a)
    (htrans : ∀ a b c, R a b → R b c → R a c) {step : α → β → α}
    (h : ∀ a p, R a (step a p)) : ∀ (l : List β) (a : α), R a (l.foldl step a) := by
  intro l
  induction l with
  | nil => intro a; exact hrefl a
  | cons x xs ih => intro a; exact htrans _ _ _ (h a x) (ih (step a x))

theorem strengthens_refl (cs : Constraints) : Strengthens cs cs :=
  ⟨fun _ => le_refl _, fun _ _ h => h, fun _ c h => ⟨c, h⟩⟩

theorem strengthens_trans {a b c : Constraints} (h1 : Strengthens a b)
    (h2 : Strengthens b c) : Strengthens a c := by
  obtain ⟨m1, e1, p1⟩ := h1
  obtain ⟨m2, e2, p2⟩ := h2
  refine ⟨fun ch => le_trans (m1 ch) (m2 ch), fun j ch h => e2 j ch (e1 j ch h),
    fun j ch h => ?_⟩
  obtain ⟨c', hc'⟩ := p1 j ch h
  exact p2 j c' hc'

theorem updatePins_strengthens (ig : Int) (acc : Constraints)
    (p : Nat × (Char × Feedback)) : Strengthens acc (updatePins ig acc p) := by
  rw [updatePins]
  by_cases hig : (p.1 : Int) = ig
  · rw [if_pos hig]
    exact strengthens_refl acc
  · rw [if_neg hig]
    cases hf : p.2.2 with
    | correct =>
      refine ⟨fun c => le_refl _, fun j c h => h, fun j c h => ?_⟩
      simp only
      by_cases hj : (j : Nat) = p.1
      · rw [if_pos hj]
        exact ⟨p.2.1, rfl⟩
      · rw [if_neg hj]
        exact ⟨c, h⟩
    | present =>
      refine ⟨fun c => le_refl _, fun j c h => ?_, fun j c h => ⟨c, h⟩⟩
      simp only
      by_cases hj : (j : Nat) = p.1
      · rw [if_pos hj]
        exact List.mem_insert_iff.mpr (Or.inr h)
      · rw [if_neg hj]
        exact h
    | incorrect => exact strengthens_refl acc

theorem updateMins_strengthens (conf : Char → Nat) (ig : Int)
    (acc : Constraints) (p : Nat × (Char × Feedback)) :
    Strengthens acc (updateMins conf ig acc p) := by
  rw [updateMins]
  by_cases hcond : ((p.1 : Int) = ig ∨ p.2.2 = Feedback.incorrect)
  · rw [if_pos hcond]
    exact strengthens_refl acc
  · rw [if_neg hcond]
    refine ⟨fun c => ?_, fun j c h => h, fun j c h => ⟨c, h⟩⟩
    simp only
    by_cases hc : c = p.2.1
    · subst hc
      rw [lookup_alistSet_self]
      simp only [Option.getD_some]
      exact le_max_left _ _
    · rw [lookup_alistSet_ne _ _ hc]

theorem updateMaxes_strengthens (conf : Char → Nat) (ig : Int)
    (acc : Constraints) (p : Nat × (Char × Feedback)) :
    Strengthens acc (updateMaxes conf ig acc p) := by
  rw [updateMaxes]
  by_cases hig : (p.1 : Int) = ig
  · rw [if_pos hig]
    exact strengthens_refl acc
  · rw [if_neg hig]
    by_cases hf : p.2.2 = Feedback.incorrect
    · rw [if_pos hf]
      by_cases hc0 : conf p.2.1 = 0
      · rw [if_pos hc0]
        refine ⟨fun c => le_refl _, fun j c h => ?_, fun j c h => ⟨c, h⟩⟩
        simp only
        by_cases hj : (((j : Nat) : Int) ≠ ig)
        · rw [if_pos hj]
          exact List.mem_insert_iff.mpr (Or.inr h)
        · rw [if_neg hj]
          exact h
      · rw [if_neg hc0]
        exact ⟨fun c => le_refl _, fun j c h => h, fun j c h => ⟨c, h⟩⟩
    · rw [if_neg hf]
      exact strengthens_refl acc

theorem updateCore_strengthens (cs : Constraints) (word : List Char)
    (fb : List Feedback) (ig : Int) :
    Strengthens cs (updateCore cs word fb ig) := by
  unfold updateCore
  have htr : ∀ a b c : Constraints, Strengthens a b → Strengthens b c →
      Strengthens a c := fun a b c hab hbc => strengthens_trans hab hbc
  have h1 := foldl_rel strengthens_refl htr
    (fun a p => updatePins_strengthens ig a p) ((word.zip fb).enum) cs
  have h2 := foldl_rel strengthens_refl htr
    (fun a p => updateMins_strengthens (confirmedCount word fb ig) ig a p)
    ((word.zip fb).enum) (((word.zip fb).enum).foldl (updatePins ig) cs)
  have h3 := foldl_rel strengthens_refl htr
    (fun a p => updateMaxes_strengthens (confirmedCount word fb ig) ig a p)
    ((word.zip fb).enum)
    (((word.zip fb).enum).foldl (updateMins (confirmedCount word fb ig) ig)
      (((word.zip fb).enum).foldl (updatePins ig) cs))
  exact strengthens_trans (strengthens_trans h1 h2) h3

/-- Claim C9: every call to `Constraints.update` only strengthens the model:
no `min_count` lower bound ever decreases, every position's exclusion set
only grows, and a position bound in `correct_pos` never loses its binding
(the letter it is bound to may be overwritten, but the entry is never
removed). -/
theorem update_only_strengthens (cs : Constraints) (word : List Char)
    (fb : List Feedback) (ig : Int) :
    (∀ c : Char, (cs.min_count.lookup c).getD 0 ≤
      ((cs.update word fb ig).min_count.lookup c).getD 0) ∧
    (∀ j : Fin 5, ∀ c, c ∈ cs.excluded_pos j →
      c ∈ (cs.update word fb ig).excluded_pos j) ∧
    (∀ j : Fin 5, ∀ c, cs.correct_pos j = some c →
      ∃ c', (cs.update word fb ig).correct_pos j = some c') :=
  updateCore_strengthens cs (word.map Char.toLower) fb ig

theorem updatePins_max_count (ig : Int) (acc : Constraints)
    (p : Nat × (Char × Feedback)) :
    (updatePins ig acc p).max_count = acc.max_count := by
  rw [updatePins]
  by_cases hig : (p.1 : Int) = ig
  · rw [if_pos hig]
  · rw [if_neg hig]
    cases p.2.2 <;> rfl

theorem updateMins_max_count (conf : Char → Nat) (ig : Int) (acc : Constraints)
    (p : Nat × (Char × Feedback)) :
    (updateMins conf ig acc p).max_count = acc.max_count := by
  rw [updateMins]
  by_cases hcond : ((p.1 : Int) = ig ∨ p.2.2 = Feedback.incorrect)
  · rw [if_pos hcond]
  · rw [if_neg hcond]

theorem updatePins_min_count (ig : Int) (acc : Constraints)
    (p : Nat × (Char × Feedback)) :
    (updatePins ig acc p).min_count = acc.min_count := by
  rw [updatePins]
  by_cases hig : (p.1 : Int) = ig
  · rw [if_pos hig]
  · rw [if_neg hig]
    cases p.2.2 <;> rfl

theorem updateMaxes_min_count (conf : Char → Nat) (ig : Int) (acc : Constraints)
    (p : Nat × (Char × Feedback)) :
    (updateMaxes conf ig acc p).min_count = acc.min_count := by
  rw [updateMaxes]
  by_cases hig : (p.1 : Int) = ig
  · rw [if_pos hig]
  · rw [if_neg hig]
    by_cases hf : p.2.2 = Feedback.incorrect
    · rw [if_pos hf]
      by_cases hc0 : conf p.2.1 = 0
      · rw [if_pos hc0]
      · rw [if_neg hc0]
    · rw [if_neg hf]

theorem updateMaxes_lookup_preserve (conf : Char → Nat) (ig : Int)
    (acc : Constraints) (p : Nat × (Char × Feedback)) (c : Char)
    (h : acc.max_count.lookup c = some (conf c)) :
    (updateMaxes conf ig acc p).max_count.lookup c = some (conf c) := by
  rw [updateMaxes]
  by_cases hig : (p.1 : Int) = ig
  · rw [if_pos hig]
    exact h
  · rw [if_neg hig]
    by_cases hf : p.2.2 = Feedback.incorrect
    · rw [if_pos hf]
      have hmax : (alistSet acc.max_count p.2.1 (conf p.2.1)).lookup c
          = some (conf c) := by
        by_cases hc : c = p.2.1
        · subst hc
          rw [lookup_alistSet_self]
        · rw [lookup_alistSet_ne _ _ hc]
          exact h
      by_cases hc0 : conf p.2.1 = 0
      · rw [if_pos hc0]
        exact hmax
      · rw [if_neg hc0]
        exact hmax
    · rw [if_neg hf]
      exact h

theorem updateMaxes_establish (conf : Char → Nat) (ig : Int) (acc : Constraints)
    (i : Nat) (c : Char) (hig : ((i : Int) ≠ ig)) :
    (updateMaxes conf ig acc (i, (c, Feedback.incorrect))).max_count.lookup c
      = some (conf c) := by
  rw [updateMaxes]
  have hig' : ¬(((i, (c, Feedback.incorrect)).1 : Int) = ig) := hig
  rw [if_neg hig']
  have hf : ((i, (c, Feedback.incorrect)).2.2 = Feedback.incorrect) := rfl
  rw [if_pos hf]
  have hmax : (alistSet acc.max_count c (conf c)).lookup c = some (conf c) :=
    lookup_alistSet_self _ _ _
  by_cases hc0 : conf (i, (c, Feedback.incorrect)).2.1 = 0
  · rw [if_pos hc0]
    exact hmax
  · rw [if_neg hc0]
    exact hmax

theorem updateMaxes_excluded_establish (conf : Char → Nat) (ig : Int)
    (acc : Constraints) (i : Nat) (c : Char) (hig : ((i : Int) ≠ ig))
    (hc0 : conf c = 0) (j : Fin 5) (hj : (((j : Nat) : Int) ≠ ig)) :
    c ∈ (updateMaxes conf ig acc (i, (c, Feedback.incorrect))).excluded_pos j := by
  rw [updateMaxes]
  have hig' : ¬(((i, (c, Feedback.incorrect)).1 : Int) = ig) := hig
  rw [if_neg hig']
  rw [if_pos (rfl : (i, (c, Feedback.incorrect)).2.2 = Feedback.incorrect)]
  rw [if_pos (hc0 : conf (i, (c, Feedback.incorrect)).2.1 = 0)]
  simp only
  rw [if_pos hj]
  exact List.mem_insert_iff.mpr (Or.inl rfl)

theorem updateMins_establish (conf : Char → Nat) (ig : Int) (acc : Constraints)
    (i : Nat) (c : Char) (f : Feedback) (hig : ((i : Int) ≠ ig))
    (hf : f ≠ Feedback.incorrect) :
    conf c ≤ ((updateMins conf ig acc (i, (c, f))).min_count.lookup c).getD 0 := by
  rw [updateMins]
  have hcond : ¬(((i, (c, f)).1 : Int) = ig ∨
      (i, (c, f)).2.2 = Feedback.incorrect) := by
    push_neg
    exact ⟨hig, hf⟩
  rw [if_neg hcond]
  simp only
  rw [lookup_alistSet_self]
  simp only [Option.getD_some]
  exact le_max_right _ _

theorem confirmedCount_pos_exists {word : List Char} {fb : List Feedback}
    {ig : Int} {c : Char} (h : 0 < confirmedCount word fb ig c) :
    ∃ i f, (i, (c, f)) ∈ (word.zip fb).enum ∧ ((i : Int) ≠ ig) ∧
      f ≠ Feedback.incorrect := by
  rw [confirmedCount] at h
  rw [List.length_pos] at h
  obtain ⟨p, hp⟩ := List.exists_mem_of_ne_nil _ h
  obtain ⟨hmem, hpred⟩ := List.mem_filter.mp hp
  simp only [Bool.and_eq_true, decide_eq_true_eq, beq_iff_eq,
    Bool.not_eq_true'] at hpred
  obtain ⟨⟨hig, hc⟩, hfb⟩ := hpred
  refine ⟨p.1, p.2.2, ?_, hig, ?_⟩
  · rw [← hc]
    exact hmem
  · exact fun heq => (beq_eq_false_iff_ne.mp hfb) heq

theorem foldl_updateMaxes_min_count (conf : Char → Nat) (ig : Int)
    (l : List (Nat × (Char × Feedback))) (a : Constraints) :
    (l.foldl (updateMaxes conf ig) a).min_count = a.min_count := by
  induction l generalizing a with
  | nil => rfl
  | cons p rest ih => rw [List.foldl_cons, ih, updateMaxes_min_count]

theorem updateCore_facts (cs : Constraints) (word : List Char)
    (fb : List Feedback) (ig : Int) :
    (∀ i c, (i, (c, Feedback.incorrect)) ∈ (word.zip fb).enum →
      ((i : Int) ≠ ig) →
      (updateCore cs word fb ig).max_count.lookup c
        = some (confirmedCount word fb ig c) ∧
      (confirmedCount word fb ig c = 0 → ∀ j : Fin 5,
        (((j : Nat) : Int) ≠ ig) →
        c ∈ (updateCore cs word fb ig).excluded_pos j)) ∧
    (∀ c, 0 < confirmedCount word fb ig c →
      confirmedCount word fb ig c ≤
        ((updateCore cs word fb ig).min_count.lookup c).getD 0) := by
  unfold updateCore
  constructor
  · intro i c hmem hig
    constructor
    · exact @foldl_establish Constraints (Nat × (Char × Feedback))
        (fun acc => acc.max_count.lookup c = some (confirmedCount word fb ig c))
        (updateMaxes (confirmedCount word fb ig) ig) ((word.zip fb).enum)
        (i, (c, Feedback.incorrect)) hmem
        (fun a => updateMaxes_establish _ ig a i c hig)
        (fun p hp a ha => updateMaxes_lookup_preserve _ ig a p c ha) _
    · intro hc0 j hj
      exact @foldl_establish Constraints (Nat × (Char × Feedback))
        (fun acc => c ∈ acc.excluded_pos j)
        (updateMaxes (confirmedCount word fb ig) ig) ((word.zip fb).enum)
        (i, (c, Feedback.incorrect)) hmem
        (fun a => updateMaxes_excluded_establish _ ig a i c hig hc0 j hj)
        (fun p hp a ha => (updateMaxes_strengthens _ ig a p).2.1 j c ha) _
  · intro c hpos
    obtain ⟨i, f, hmem, hig, hf⟩ := confirmedCount_pos_exists hpos
    have h2 : confirmedCount word fb ig c ≤
        ((((word.zip fb).enum).foldl (updateMins (confirmedCount word fb ig) ig)
          (((word.zip fb).enum).foldl (updatePins ig) cs)).min_count.lookup
            c).getD 0 :=
      @foldl_establish Constraints (Nat × (Char × Feedback))
        (fun acc => confirmedCount word fb ig c ≤
          (acc.min_count.lookup c).getD 0)
        (updateMins (confirmedCount word fb ig) ig) ((word.zip fb).enum)
        (i, (c, f)) hmem
        (fun a => updateMins_establish _ ig a i c f hig hf)
        (fun p hp a ha => le_trans ha ((updateMins_strengthens _ ig a p).1 c)) _
    rw [foldl_updateMaxes_min_count]
    exact h2

/-- Claim C3: after `Constraints.update(word, feedback, ignore_column)` on a
lowercase word, every letter carrying an `incorrect` mark at a non-ignored
position whose confirmed count (non-ignored `correct`/`present` marks of
the same guess) is zero has `max_count[letter]` set to that confirmed count
(that is, 0) and is added to the excluded set of every position other than
`ignore_column`; and `min_count` of every letter with at least one
confirmed occurrence is at least its confirmed count for this guess. -/
theorem update_incorrect_marks (cs : Constraints) (word : List Char)
    (fb : List Feedback) (ig : Int) (hlow : word.map Char.toLower = word) :
    (∀ i c, (i, (c, Feedback.incorrect)) ∈ (word.zip fb).enum →
      ((i : Int) ≠ ig) → confirmedCount word fb ig c = 0 →
      (cs.update word fb ig).max_count.lookup c = some 0 ∧
      (∀ j : Fin 5, (((j : Nat) : Int) ≠ ig) →
        c ∈ (cs.update word fb ig).excluded_pos j)) ∧
    (∀ c, 0 < confirmedCount word fb ig c →
      confirmedCount word fb ig c ≤
        ((cs.update word fb ig).min_count.lookup c).getD 0) := by
  have hupd : cs.update word fb ig = updateCore cs word fb ig := by
    rw [Constraints.update, hlow]
  rw [hupd]
  obtain ⟨h1, h2⟩ := updateCore_facts cs word fb ig
  refine ⟨?_, h2⟩
  intro i c hmem hig hc0
  obtain ⟨hmax, hexc⟩ := h1 i c hmem hig
  rw [hc0] at hmax
  exact ⟨hmax, hexc hc0⟩

/-- Witness for C3 at a concrete update. -/
theorem update_incorrect_marks_witness :
    ("slate".toList.map Char.toLower = "slate".toList) ∧
    ((∀ i c, (i, (c, Feedback.incorrect)) ∈
        ("slate".toList.zip [Feedback.incorrect, Feedback.incorrect,
          Feedback.correct, Feedback.incorrect, Feedback.present]).enum →
      ((i : Int) ≠ (-1 : Int)) →
      confirmedCount "slate".toList [Feedback.incorrect, Feedback.incorrect,
          Feedback.correct, Feedback.incorrect, Feedback.present] (-1) c = 0 →
      (Constraints.init.update "slate".toList [Feedback.incorrect,
          Feedback.incorrect, Feedback.correct, Feedback.incorrect,
          Feedback.present] (-1)).max_count.lookup c = some 0 ∧
      (∀ j : Fin 5, (((j : Nat) : Int) ≠ (-1 : Int)) →
        c ∈ (Constraints.init.update "slate".toList [Feedback.incorrect,
          Feedback.incorrect, Feedback.correct, Feedback.incorrect,
          Feedback.present] (-1)).excluded_pos j)) ∧
    (∀ c, 0 < confirmedCount "slate".toList [Feedback.incorrect,
        Feedback.incorrect, Feedback.correct, Feedback.incorrect,
        Feedback.present] (-1) c →
      confirmedCount "slate".toList [Feedback.incorrect, Feedback.incorrect,
        Feedback.correct, Feedback.incorrect, Feedback.present] (-1) c ≤
        ((Constraints.init.update "slate".toList [Feedback.incorrect,
          Feedback.incorrect, Feedback.correct, Feedback.incorrect,
          Feedback.present] (-1)).min_count.lookup c).getD 0)) :=
  ⟨by decide,
    update_incorrect_marks Constraints.init "slate".toList
      [Feedback.incorrect, Feedback.incorrect, Feedback.correct,
        Feedback.incorrect, Feedback.present] (-1) (by decide)⟩

theorem apply_lie_lie_column (gs : GameState) (fb : List Feedback) :
    (gs.apply_lie fb).2.lie_column = gs.lie_column := by
  rw [GameState.apply_lie]
  split
  · split <;> rfl
  · rfl

theorem calculate_feedback_lie_column (gs : GameState) (guess : List Char) :
    (gs.calculate_feedback guess).2.lie_column = gs.lie_column := by
  rw [GameState.calculate_feedback]
  split
  · exact apply_lie_lie_column gs _
  · rfl

theorem enter_word_lie_column (gs : GameState) (guess : List Char) :
    (gs.enter_word guess).lie_column = gs.lie_column := by
  rw [GameState.enter_word]
  split
  · exact calculate_feedback_lie_column gs _
  · split
    · exact calculate_feedback_lie_column gs _
    · exact calculate_feedback_lie_column gs _

theorem apply_lie_budget {gs : GameState} {col : Nat} (fb : List Feedback)
    (h2 : gs.lies_given < gs.num_lies) (hcol : gs.lie_column = some col) :
    gs.apply_lie fb = (fb.set col (flipFb (fb.getD col Feedback.incorrect)),
      { gs with lies_given := gs.lies_given + 1 }) := by
  rw [GameState.apply_lie]
  split
  · rename_i col' heq
    rw [hcol] at heq
    obtain rfl := Option.some.inj heq
    rw [if_pos h2]
  · rename_i heq
    rw [hcol] at heq
    cases heq

theorem calculate_feedback_budget {gs : GameState} {col : Nat}
    (guess : List Char) (h1 : 0 < gs.num_lies)
    (h2 : gs.lies_given < gs.num_lies) (hcol : gs.lie_column = some col) :
    gs.calculate_feedback guess =
      ((calcFeedbackTruthful guess gs.target_word).set col
        (flipFb ((calcFeedbackTruthful guess gs.target_word).getD col
          Feedback.incorrect)),
        { gs with lies_given := gs.lies_given + 1 }) := by
  rw [GameState.calculate_feedback, if_pos ⟨h1, h2⟩]
  exact apply_lie_budget _ h2 hcol

theorem calculate_feedback_exhausted {gs : GameState} (guess : List Char)
    (h2 : gs.num_lies ≤ gs.lies_given) :
    gs.calculate_feedback guess =
      (calcFeedbackTruthful guess gs.target_word, gs) := by
  rw [GameState.calculate_feedback, if_neg]
  intro hcond
  omega

theorem calcFeedbackTruthful_length (guess t : List Char) :
    (calcFeedbackTruthful guess t).length = min guess.length t.length := by
  rw [calcFeedbackTruthful, calcFeedbackCore_length, List.length_map,
    List.length_map]

theorem foldl_enter_word_lie_column (l : List (List Char)) :
    ∀ gs : GameState, (l.foldl GameState.enter_word gs).lie_column =
      gs.lie_column := by
  induction l with
  | nil => intro gs; rfl
  | cons g rest ih =>
    intro gs
    rw [List.foldl_cons, ih, enter_word_lie_column]

/-- Claim C4: in Fibble mode (`num_lies > 0`), while the lie budget is not
exhausted the feedback returned for every guess has exactly the designated
lie column's tag flipped relative to truthful feedback (`correct` and
`present` become `incorrect`, `incorrect` becomes `present`), each such
flip consumes one budget unit, feedback after the budget is exhausted is
truthful (with state untouched), and the lie column chosen at reset never
changes for the rest of the game. -/
theorem fibble_lie_injection :
    (flipFb Feedback.correct = Feedback.incorrect ∧
      flipFb Feedback.present = Feedback.incorrect ∧
      flipFb Feedback.incorrect = Feedback.present) ∧
    (∀ (gs : GameState) (guess : List Char) (col : Nat),
      0 < gs.num_lies → gs.lies_given < gs.num_lies →
      gs.lie_column = some col → col < 5 → guess.length = 5 →
      gs.target_word.length = 5 →
      ((gs.calculate_feedback guess).1.getD col Feedback.incorrect =
        flipFb ((calcFeedbackTruthful guess gs.target_word).getD col
          Feedback.incorrect)) ∧
      (∀ i, i < 5 → i ≠ col →
        (gs.calculate_feedback guess).1.getD i Feedback.incorrect =
          (calcFeedbackTruthful guess gs.target_word).getD i
            Feedback.incorrect) ∧
      (gs.calculate_feedback guess).2.lies_given = gs.lies_given + 1 ∧
      (gs.calculate_feedback guess).2.lie_column = gs.lie_column) ∧
    (∀ (gs : GameState) (guess : List Char),
      gs.num_lies ≤ gs.lies_given →
      gs.calculate_feedback guess =
        (calcFeedbackTruthful guess gs.target_word, gs)) ∧
    (∀ (gs0 : GameState) (T : List Char) (col : Nat)
      (guesses : List (List Char)), 0 < gs0.num_lies →
      (guesses.foldl GameState.enter_word (gs0.reset T col)).lie_column =
        some col) := by
  refine ⟨⟨rfl, rfl, rfl⟩, ?_, ?_, ?_⟩
  · intro gs guess col h1 h2 hcol hcol5 hg5 ht5
    have hlen : (calcFeedbackTruthful guess gs.target_word).length = 5 := by
      rw [calcFeedbackTruthful_length, hg5, ht5]
      simp
    rw [calculate_feedback_budget guess h1 h2 hcol]
    refine ⟨?_, ?_, rfl, rfl⟩
    · simp only
      rw [List.getD_eq_getElem?_getD, List.getElem?_set_self (by omega),
        List.getD_eq_getElem?_getD]
      cases hx : (calcFeedbackTruthful guess gs.target_word)[col]? with
      | none =>
        rw [List.getElem?_eq_none_iff] at hx
        omega
      | some v => rfl
    · intro i hi5 hne
      simp only
      rw [List.getD_eq_getElem?_getD, List.getElem?_set_ne (fun h => hne h.symm),
        List.getD_eq_getElem?_getD]
  · intro gs guess h2
    exact calculate_feedback_exhausted guess h2
  · intro gs0 T col guesses h1
    rw [foldl_enter_word_lie_column, GameState.reset]
    simp only
    rw [if_pos h1]

/-- Witness for C4 on a concrete one-lie game. -/
theorem fibble_lie_injection_witness :
    ((fibbleTestGame.calculate_feedback "slate".toList).1.getD 2
        Feedback.incorrect =
      flipFb ((calcFeedbackTruthful "slate".toList
        fibbleTestGame.target_word).getD 2 Feedback.incorrect)) ∧
    (∀ i, i < 5 → i ≠ 2 →
      (fibbleTestGame.calculate_feedback "slate".toList).1.getD i
          Feedback.incorrect =
        (calcFeedbackTruthful "slate".toList
          fibbleTestGame.target_word).getD i Feedback.incorrect) ∧
    ((fibbleTestGame.calculate_feedback "slate".toList).2.lies_given =
      fibbleTestGame.lies_given + 1) ∧
    ((fibbleTestGame.calculate_feedback "slate".toList).2.lie_column =
      fibbleTestGame.lie_column) ∧
    (({ fibbleTestGame with lies_given := 1 } :
        GameState).calculate_feedback "slate".toList =
      (calcFeedbackTruthful "slate".toList
        ({ fibbleTestGame with lies_given := 1 } : GameState).target_word,
        { fibbleTestGame with lies_given := 1 })) ∧
    ((["slate".toList].foldl GameState.enter_word
      (fibbleTestGame.reset "crane".toList 3)).lie_column = some 3) := by
  have h := fibble_lie_injection.2.1 fibbleTestGame "slate".toList 2
    (by decide) (by decide) (by decide) (by decide) (by decide) (by decide)
  have h2 := fibble_lie_injection.2.2.1
    { fibbleTestGame with lies_given := 1 } "slate".toList (by decide)
  have h3 := fibble_lie_injection.2.2.2 fibbleTestGame "crane".toList 3
    ["slate".toList] (by decide)
  exact ⟨h.1, h.2.1, h.2.2.1, h.2.2.2, h2, h3⟩

theorem runinv_init (T : List Char) (lc : Nat) :
    RunInv (GameState.init T lc) := by
  refine ⟨rfl, by simp [GameState.init, GameState.reset], ?_, ?_, ?_⟩
  · intro _
    simp [GameState.init, GameState.reset]
  · intro h
    simp [GameState.init, GameState.reset] at h
  · simp [GameState.init, GameState.reset]

theorem runinv_step {gs : GameState} (hinv : RunInv gs)
    (hplay : gs.status = Status.playing) (g : List Char) :
    RunInv (gs.enter_word g) := by
  obtain ⟨h0, hle, hpl, hend, hsucc⟩ := hinv
  obtain ⟨hlt, hlast⟩ := hpl hplay
  have hsf : gs.success = false := by
    cases hs : gs.success
    · rfl
    · exact absurd (hsucc.mp hs) hlast
  have hcf : gs.calculate_feedback (g.map Char.toLower) =
      (calcFeedbackTruthful (g.map Char.toLower) gs.target_word, gs) :=
    calculate_feedback_exhausted _ (by omega)
  rw [GameState.enter_word]
  simp only [hcf]
  by_cases heq : g.map Char.toLower = gs.target_word
  · rw [if_pos heq]
    refine ⟨h0, ?_, ?_, ?_, ?_⟩
    · simp only [List.length_append, List.length_cons, List.length_nil]
      omega
    · intro hst
      simp at hst
    · intro _
      left
      simp only [List.getLast?_concat, Option.map_some']
      rw [heq]
    · simp only [List.getLast?_concat, Option.map_some']
      rw [heq]
      simp
  · rw [if_neg heq]
    by_cases hfull : gs.num_guesses ≤ (gs.words ++
        [(g.map Char.toLower,
          calcFeedbackTruthful (g.map Char.toLower) gs.target_word)]).length
    · rw [if_pos hfull]
      simp only [List.length_append, List.length_cons, List.length_nil] at hfull
      refine ⟨h0, ?_, ?_, ?_, ?_⟩
      · simp only [List.length_append, List.length_cons, List.length_nil]
        omega
      · intro hst
        simp at hst
      · intro _
        right
        simp only [List.length_append, List.length_cons, List.length_nil]
        omega
      · simp only [List.getLast?_concat, Option.map_some']
        constructor
        · intro hfalse
          cases hfalse
        · intro hsome
          exact absurd (Option.some.inj hsome) heq
    · rw [if_neg hfull]
      simp only [List.length_append, List.length_cons, List.length_nil] at hfull
      refine ⟨h0, ?_, ?_, ?_, ?_⟩
      · simp only [List.length_append, List.length_cons, List.length_nil]
        omega
      · intro _
        refine ⟨by simp only [List.length_append, List.length_cons,
            List.length_nil]; omega, ?_⟩
        simp only [List.getLast?_concat, Option.map_some']
        intro hsome
        exact heq (Option.some.inj hsome)
      · intro hst
        rw [hplay] at hst
        cases hst
      · rw [hsf]
        simp only [List.getLast?_concat, Option.map_some']
        constructor
        · intro hfalse
          cases hfalse
        · intro hsome
          exact absurd (Option.some.inj hsome) heq

/-- Claim C10 (amended): for every sequence of `enter_word` calls each made
while the game status is still `playing`, the status is `ended` exactly
when the last entered guess equals the target or the number of entered
guesses has reached `num_guesses` (default 6, whichever happened first);
`success` holds iff the final entered guess equals the target (so a winning
final-slot guess still counts); and `num_of_tries` never exceeds
`num_guesses`. -/
theorem enter_word_run_invariants (T : List Char) (lc : Nat) (gs : GameState)
    (h : Reaches (GameState.init T lc) gs) :
    gs.num_of_tries ≤ gs.num_guesses ∧
    (gs.status = Status.ended ↔
      ((gs.words.getLast?).map Prod.fst = some gs.target_word ∨
        gs.words.length = gs.num_guesses)) ∧
    (gs.success = true ↔
      (gs.words.getLast?).map Prod.fst = some gs.target_word) := by
  have hinv : RunInv gs := by
    induction h with
    | refl => exact runinv_init T lc
    | step hr hplay ih => exact runinv_step ih hplay _
  obtain ⟨h0, hle, hpl, hend, hsucc⟩ := hinv
  refine ⟨hle, ⟨hend, ?_⟩, hsucc⟩
  intro hdisj
  cases hst : gs.status
  · obtain ⟨hlt, hlast⟩ := hpl hst
    rcases hdisj with hA | hB
    · exact absurd hA hlast
    · omega
  · rfl

/-- Witness for C10 (amended): a two-call playing-only run. -/
theorem enter_word_run_invariants_witness :
    (Reaches (GameState.init "crane".toList 0)
      ((GameState.init "crane".toList 0).enter_word "slate".toList)) ∧
    (((GameState.init "crane".toList 0).enter_word
        "slate".toList).num_of_tries ≤
      ((GameState.init "crane".toList 0).enter_word
        "slate".toList).num_guesses) :=
  ⟨Reaches.step Reaches.refl rfl,
    (enter_word_run_invariants "crane".toList 0 _
      (Reaches.step Reaches.refl rfl)).1⟩

/-- Counterexample to C10 as stated: seven consecutive `enter_word` calls
after a reset drive `num_of_tries` to 7, strictly exceeding
`num_guesses = 6` — the source never guards `enter_word` by the game
status, so "num_of_tries never exceeds num_guesses" fails for sequences
that keep calling after the game ended. -/
theorem enter_word_unbounded_tries :
    (((List.replicate 7 ("slate".toList)).foldl GameState.enter_word
      (GameState.init "crane".toList 0)).num_of_tries = 7) ∧
    ((GameState.init "crane".toList 0).num_guesses = 6) ∧
    ((GameState.init "crane".toList 0).num_guesses <
      ((List.replicate 7 ("slate".toList)).foldl GameState.enter_word
        (GameState.init "crane".toList 0)).num_of_tries) := by
  refine ⟨by decide, rfl, by decide⟩

/-- Claim C6 (amended): the ingestion of the previous (word, feedback) pair
is skipped exactly when the guess word equals the word of the last history
entry (the feedback itself is not compared) or the feedback does not have
length 5; consequently re-running the turn logic never applies the same
pair twice (ingestion is idempotent). -/
theorem ingest_skip_condition :
    (∀ (h : List (List Char × List Feedback)) (w : List Char)
      (fb : List Feedback),
      shouldIngest h w fb = false ↔
        ((h.getLast?).map Prod.fst = some w ∨ fb.length ≠ 5)) ∧
    (∀ (cs : Constraints) (h : List (List Char × List Feedback))
      (w : List Char) (fb : List Feedback),
      ingestStep (ingestStep cs h w fb).1 (ingestStep cs h w fb).2 w fb =
        ingestStep cs h w fb) := by
  have hchar : ∀ (h : List (List Char × List Feedback)) (w : List Char)
      (fb : List Feedback),
      shouldIngest h w fb = false ↔
        ((h.getLast?).map Prod.fst = some w ∨ fb.length ≠ 5) := by
    intro h w fb
    rw [shouldIngest]
    cases h with
    | nil => simp
    | cons p rest =>
      have hne : ((p :: rest).isEmpty) = false := rfl
      rw [hne]
      simp
      constructor
      · intro himp
        by_cases hx : ∃ x, (p :: rest).getLast? = some (w, x)
        · exact Or.inl hx
        · exact Or.inr (himp fun x hx2 => hx ⟨x, hx2⟩)
      · intro hd hall
        rcases hd with ⟨x, hx⟩ | hlen
        · exact absurd hx (hall x)
        · exact hlen
  refine ⟨hchar, ?_⟩
  intro cs h w fb
  by_cases hing : shouldIngest h w fb = true
  · have hstep : ingestStep cs h w fb = (cs.update w fb (-1), h ++ [(w, fb)]) := by
      rw [ingestStep, if_pos hing]
    rw [hstep]
    have hskip : shouldIngest (h ++ [(w, fb)]) w fb = false := by
      rw [hchar]
      left
      rw [List.getLast?_concat]
      rfl
    rw [ingestStep, if_neg (by rw [hskip]; exact Bool.false_ne_true)]
  · have hstep : ingestStep cs h w fb = (cs, h) := by
      rw [ingestStep, if_neg hing]
    rw [hstep, ingestStep, if_neg hing]

/-- Witness for C6 (no top-level hypotheses; instantiates both parts). -/
theorem ingest_skip_condition_witness :
    (shouldIngest [] ("salet".toList) (List.replicate 5 Feedback.correct) =
        false ↔
      ((([] : List (List Char × List Feedback)).getLast?).map Prod.fst =
          some ("salet".toList) ∨
        (List.replicate 5 Feedback.correct).length ≠ 5)) ∧
    (ingestStep
        (ingestStep Constraints.init [] ("salet".toList)
          (List.replicate 5 Feedback.correct)).1
        (ingestStep Constraints.init [] ("salet".toList)
          (List.replicate 5 Feedback.correct)).2 ("salet".toList)
        (List.replicate 5 Feedback.correct) =
      ingestStep Constraints.init [] ("salet".toList)
        (List.replicate 5 Feedback.correct)) :=
  ⟨ingest_skip_condition.1 [] ("salet".toList)
      (List.replicate 5 Feedback.correct),
    ingest_skip_condition.2 Constraints.init [] ("salet".toList)
      (List.replicate 5 Feedback.correct)⟩

/-- Counterexample to C6 as stated: the skip test compares only the word of
the last history entry, so a re-guess of the same word with different
feedback is skipped even though that exact (word, feedback) pair was never
ingested. -/
theorem ingest_skip_ignores_feedback :
    shouldIngest [(("salet".toList), List.replicate 5 Feedback.incorrect)]
      ("salet".toList) (List.replicate 5 Feedback.correct) = false ∧
    ([(("salet".toList), List.replicate 5 Feedback.incorrect)].getLast? ≠
      some (("salet".toList), List.replicate 5 Feedback.correct)) := by
  refine ⟨by decide, by decide⟩

theorem recoveryPhase_no_reset {numLies : Nat} {vocab : List (List Char)}
    {history : List (List Char × List Feedback)}
    {guessed : List (List Char)} {cs : Constraints}
    {cands : List (List Char)}
    (h : (recoveryPhase numLies vocab history guessed cs cands).2.2 = false) :
    recoveryPhase numLies vocab history guessed cs cands =
      (cs, cands, false) := by
  rw [recoveryPhase] at h ⊢
  by_cases hcond : (cands.isEmpty && decide (0 < numLies)) = true
  · rw [if_pos hcond] at h ⊢
    cases hrec : fibbleRecover vocab history guessed (List.range 5) with
    | some r =>
      rw [hrec] at h
      simp at h
    | none => rfl
  · rw [if_neg hcond] at h ⊢

theorem emptyResetPhase_no_reset {vocab : List (List Char)}
    {cs : Constraints} {cands : List (List Char)}
    (h : (emptyResetPhase vocab cs cands).2 = false) :
    emptyResetPhase vocab cs cands = (cands, false) := by
  rw [emptyResetPhase] at h ⊢
  by_cases hc : cands.isEmpty = true
  · rw [if_pos hc] at h
    simp at h
  · rw [if_neg hc]

/-- Claim C7: in a turn in which neither the Fibble recovery adoption nor
the empty-candidate reset fires, the candidate list held by the solver
state that `solverChoose` returns is a subset of the candidate list it
held before the turn: every path (single candidate, starter fallback,
oracle loop) leaves the plain constrained filter of the old candidates,
and filtering never adds a word. -/
theorem candidates_monotone (numLies : Nat) (vocab : List (List Char))
    (guessed : List (List Char)) (st : AIState)
    (oracle : Nat → Option String)
    (h1 : (recoveryPhase numLies vocab st.history guessed st.constraints
      (st.candidates.filter fun w =>
        st.constraints.matches w && !(guessed.contains w))).2.2 = false)
    (h2 : (emptyResetPhase vocab
      (recoveryPhase numLies vocab st.history guessed st.constraints
        (st.candidates.filter fun w =>
          st.constraints.matches w && !(guessed.contains w))).1
      (recoveryPhase numLies vocab st.history guessed st.constraints
        (st.candidates.filter fun w =>
          st.constraints.matches w &&
            !(guessed.contains w))).2.1).2 = false) :
    ∀ w ∈ (solverChoose vocab numLies guessed st oracle).2.2.candidates,
      w ∈ st.candidates := by
  intro w hw
  rw [solverChoose] at hw
  dsimp only at hw
  rw [recoveryPhase_no_reset h1] at hw h2
  dsimp only at hw h2
  split at hw
  · exact List.mem_of_mem_filter hw
  · rw [emptyResetPhase_no_reset h2] at hw
    dsimp only at hw
    split at hw
    · exact List.mem_of_mem_filter hw
    · exact List.mem_of_mem_filter hw

/-- Witness for C7 on a concrete no-reset turn. -/
theorem candidates_monotone_witness :
    ((recoveryPhase 0 [("crane".toList)]
      (⟨Constraints.init, ["crane".toList], 1, []⟩ : AIState).history []
      Constraints.init
      (["crane".toList].filter fun w =>
        Constraints.init.matches w && !(([] :
          List (List Char)).contains w))).2.2 = false) ∧
    ∀ w ∈ (solverChoose [("crane".toList)] 0 []
        (⟨Constraints.init, ["crane".toList], 1, []⟩ : AIState)
        (fun _ => none)).2.2.candidates,
      w ∈ ["crane".toList] :=
  ⟨by decide,
    candidates_monotone 0 [("crane".toList)] []
      (⟨Constraints.init, ["crane".toList], 1, []⟩ : AIState)
      (fun _ => none) (by decide) (by decide)⟩

theorem fibbleRecover_spec (vocab : List (List Char))
    (history : List (List Char × List Feedback))
    (guessed : List (List Char)) :
    ∀ (n a col : Nat) (tcs : Constraints) (tcands : List (List Char)),
      fibbleRecover vocab history guessed (List.range' a n) =
        some (col, tcs, tcands) →
      a ≤ col ∧ col < a + n ∧
      tcs = buildConstraints history (col : Int) ∧
      tcands = vocab.filter (fun w => tcs.matches w &&
        !(guessed.contains w)) ∧
      tcands ≠ [] ∧
      ∀ c', a ≤ c' → c' < col →
        vocab.filter (fun w =>
          (buildConstraints history (c' : Int)).matches w &&
            !(guessed.contains w)) = [] := by
  intro n
  induction n with
  | zero =>
    intro a col tcs tcands h
    simp [fibbleRecover] at h
  | succ m ih =>
    intro a col tcs tcands h
    rw [List.range'_succ, fibbleRecover] at h
    by_cases hemp : (vocab.filter fun w =>
        (buildConstraints history (a : Int)).matches w &&
          !(guessed.contains w)).isEmpty = true
    · rw [if_pos hemp] at h
      obtain ⟨h1, h2, h3, h4, h5, h6⟩ := ih (a + 1) col tcs tcands h
      refine ⟨by omega, by omega, h3, h4, h5, ?_⟩
      intro c' hc1 hc2
      by_cases hca : c' = a
      · subst hca
        exact List.isEmpty_iff.mp hemp
      · exact h6 c' (by omega) hc2
    · rw [if_neg hemp] at h
      rw [Option.some.injEq, Prod.mk.injEq, Prod.mk.injEq] at h
      obtain ⟨rfl, rfl, rfl⟩ := h
      refine ⟨le_refl _, by omega, rfl, rfl, ?_, ?_⟩
      · intro hnil
        rw [hnil] at hemp
        exact hemp rfl
      · intro c' hc1 hc2
        omega

/-- Claim C5: the lie recovery procedure runs only when the constrained
candidate filter yields an empty set and the game allows lies; it tries
the columns 0,1,2,3,4 in increasing order, building for each a fresh
constraint model from the entire guess history with that column ignored
and filtering the vocabulary minus the already-guessed words; the first
column whose filtered set is non-empty has its model and candidate set
adopted as the replacement state, every earlier column having produced an
empty set (and if every column fails, nothing is adopted). -/
theorem lie_recovery_procedure (numLies : Nat) (vocab : List (List Char))
    (history : List (List Char × List Feedback))
    (guessed : List (List Char)) (cs : Constraints)
    (cands : List (List Char)) :
    (¬(cands = [] ∧ 0 < numLies) →
      recoveryPhase numLies vocab history guessed cs cands =
        (cs, cands, false)) ∧
    (∀ (col : Nat) (tcs : Constraints) (tcands : List (List Char)),
      fibbleRecover vocab history guessed (List.range 5) =
        some (col, tcs, tcands) →
      col < 5 ∧ tcs = buildConstraints history (col : Int) ∧
      tcands = vocab.filter (fun w => tcs.matches w &&
        !(guessed.contains w)) ∧
      tcands ≠ [] ∧
      ∀ c' < col, vocab.filter (fun w =>
        (buildConstraints history (c' : Int)).matches w &&
          !(guessed.contains w)) = []) ∧
    (cands = [] → 0 < numLies →
      ∀ r, fibbleRecover vocab history guessed (List.range 5) = some r →
      recoveryPhase numLies vocab history guessed cs cands =
        (r.2.1, r.2.2, true)) ∧
    (cands = [] → 0 < numLies →
      fibbleRecover vocab history guessed (List.range 5) = none →
      recoveryPhase numLies vocab history guessed cs cands =
        (cs, cands, false)) := by
  refine ⟨?_, ?_, ?_, ?_⟩
  · intro hnot
    rw [recoveryPhase, if_neg]
    intro hcond
    rw [Bool.and_eq_true, List.isEmpty_iff, decide_eq_true_eq] at hcond
    exact hnot hcond
  · intro col tcs tcands h
    rw [List.range_eq_range'] at h
    obtain ⟨h1, h2, h3, h4, h5, h6⟩ :=
      fibbleRecover_spec vocab history guessed 5 0 col tcs tcands h
    exact ⟨by omega, h3, h4, h5, fun c' hc' => h6 c' (Nat.zero_le _) hc'⟩
  · intro hnil hlies r hrec
    rw [recoveryPhase, if_pos (by
      rw [Bool.and_eq_true, List.isEmpty_iff, decide_eq_true_eq]
      exact ⟨hnil, hlies⟩), hrec]
  · intro hnil hlies hrec
    rw [recoveryPhase, if_pos (by
      rw [Bool.and_eq_true, List.isEmpty_iff, decide_eq_true_eq]
      exact ⟨hnil, hlies⟩), hrec]

/-- Witness for C5: a one-word vocabulary exercising the no-invocation,
adoption, and all-columns-fail paths. -/
theorem lie_recovery_procedure_witness :
    (recoveryPhase 0 [("crane".toList)] [] [] Constraints.init
      [("crane".toList)] = (Constraints.init, [("crane".toList)], false)) ∧
    ((0 : Nat) < 5 ∧
      buildConstraints ([] : List (List Char × List Feedback))
          (((0 : Nat) : Int)) =
        buildConstraints [] (((0 : Nat) : Int)) ∧
      [("crane".toList)] = [("crane".toList)].filter (fun w =>
        (buildConstraints ([] : List (List Char × List Feedback))
          (((0 : Nat) : Int))).matches w &&
        !(([] : List (List Char)).contains w)) ∧
      ([("crane".toList)] ≠ ([] : List (List Char))) ∧
      (∀ c' < (0 : Nat), [("crane".toList)].filter (fun w =>
        (buildConstraints ([] : List (List Char × List Feedback))
          ((c' : Int))).matches w &&
        !(([] : List (List Char)).contains w)) = [])) ∧
    (recoveryPhase 1 [("crane".toList)] [] [] Constraints.init [] =
      (buildConstraints [] (((0 : Nat) : Int)), [("crane".toList)], true)) ∧
    (recoveryPhase 1 ([] : List (List Char)) [] [] Constraints.init [] =
      (Constraints.init, [], false)) := by
  have hrec : fibbleRecover [("crane".toList)] [] [] (List.range 5) =
      some (0, buildConstraints [] (((0 : Nat) : Int)), [("crane".toList)]) := by
    rfl
  refine ⟨?_, ?_, ?_, ?_⟩
  · exact (lie_recovery_procedure 0 [("crane".toList)] [] [] Constraints.init
      [("crane".toList)]).1 (by decide)
  · exact (lie_recovery_procedure 0 [("crane".toList)] [] [] Constraints.init
      [("crane".toList)]).2.1 0 _ _ hrec
  · exact (lie_recovery_procedure 1 [("crane".toList)] [] [] Constraints.init
      []).2.2.1 rfl (by decide) _ hrec
  · exact (lie_recovery_procedure 1 ([] : List (List Char)) [] []
      Constraints.init []).2.2.2 rfl (by decide) rfl

theorem insertDesc_length (x : List Char) (l : List (List Char)) :
    (insertDesc x l).length = l.length + 1 := by
  induction l with
  | nil => rfl
  | cons y ys ih =>
    rw [insertDesc]
    by_cases h : score_word y < score_word x
    · rw [if_pos h]
      rfl
    · rw [if_neg h, List.length_cons, List.length_cons, ih]

theorem insertDesc_mem {w x : List Char} {l : List (List Char)}
    (h : w ∈ insertDesc x l) : w = x ∨ w ∈ l := by
  induction l with
  | nil => simpa [insertDesc] using h
  | cons y ys ih =>
    rw [insertDesc] at h
    by_cases hc : score_word y < score_word x
    · rw [if_pos hc] at h
      rcases List.mem_cons.mp h with rfl | hm
      · exact Or.inl rfl
      · exact Or.inr hm
    · rw [if_neg hc] at h
      rcases List.mem_cons.mp h with rfl | hm
      · exact Or.inr (List.mem_cons_self _ _)
      · rcases ih hm with h1 | h2
        · exact Or.inl h1
        · exact Or.inr (List.mem_cons_of_mem _ h2)

theorem sortDesc_length (l : List (List Char)) :
    (sortDesc l).length = l.length := by
  rw [sortDesc]
  suffices h : ∀ acc : List (List Char),
      (l.foldl (fun acc x => insertDesc x acc) acc).length =
        acc.length + l.length by
    simpa using h []
  induction l with
  | nil =>
    intro acc
    simp
  | cons x xs ih =>
    intro acc
    rw [List.foldl_cons, ih (insertDesc x acc), insertDesc_length,
      List.length_cons]
    omega

theorem foldl_insertDesc_mem {w : List Char} :
    ∀ (l acc : List (List Char)),
      w ∈ l.foldl (fun acc x => insertDesc x acc) acc → w ∈ acc ∨ w ∈ l := by
  intro l
  induction l with
  | nil =>
    intro acc ha
    exact Or.inl ha
  | cons x xs ih =>
    intro acc ha
    rw [List.foldl_cons] at ha
    rcases ih (insertDesc x acc) ha with h1 | h2
    · rcases insertDesc_mem h1 with rfl | hm
      · exact Or.inr (List.mem_cons_self _ _)
      · exact Or.inl hm
    · exact Or.inr (List.mem_cons_of_mem _ h2)

theorem sortDesc_mem {w : List Char} {l : List (List Char)}
    (h : w ∈ sortDesc l) : w ∈ l := by
  rw [sortDesc] at h
  rcases foldl_insertDesc_mem l [] h with h1 | h2
  · cases h1
  · exact h2

theorem findall5_shape {cs : List Char} :
    ∀ w ∈ findall5 cs, w.length = 5 ∧ w.all Char.isAlpha = true := by
  intro w hw
  rw [findall5, List.mem_filterMap] at hw
  obtain ⟨i, hi, hfi⟩ := hw
  by_cases hm : matchAt cs i = true
  · rw [if_pos hm] at hfi
    obtain rfl := Option.some.inj hfi
    rw [matchAt] at hm
    simp only [Bool.and_eq_true, decide_eq_true_eq, List.all_eq_true] at hm
    obtain ⟨⟨⟨hlen, halpha⟩, hr⟩, hl⟩ := hm
    have hlen5 : ((cs.drop i).take 5).length = 5 := by
      rw [List.length_take, List.length_drop]
      omega
    refine ⟨hlen5, ?_⟩
    rw [List.all_eq_true]
    intro x hx
    obtain ⟨j, hj, hji⟩ := List.mem_iff_getElem.mp hx
    have hj5 : j < 5 := by omega
    have hijlen : i + j < cs.length := by omega
    have hxval : x = cs[i + j] := by
      rw [← hji]
      rw [List.getElem_take, List.getElem_drop]
    have hgd : cs.getD (i + j) ' ' = cs[i + j] := by
      rw [List.getD_eq_getElem?_getD, List.getElem?_eq_getElem hijlen]
      rfl
    have halphaj := halpha j (List.mem_range.mpr hj5)
    rw [hgd] at halphaj
    rw [hxval]
    exact halphaj
  · rw [if_neg hm] at hfi
    cases hfi

theorem extract_word_shape {text : String} {w : List Char}
    (h : extract_word text = some w) :
    w.length = 5 ∧ w.all Char.isAlpha = true := by
  rw [extract_word] at h
  by_cases hemp : text = ""
  · rw [if_pos hemp] at h
    cases h
  · rw [if_neg hemp] at h
    by_cases hbare : ((text.trim.toList.map Char.toLower).length = 5 ∧
        (text.trim.toList.map Char.toLower).all Char.isAlpha)
    · rw [if_pos hbare] at h
      obtain rfl := Option.some.inj h
      exact ⟨hbare.1, hbare.2⟩
    · rw [if_neg hbare] at h
      cases hfind : (findall5 (text.trim.toList.map Char.toLower)).find?
          (fun w => WORDSL.contains w) with
      | some w' =>
        rw [hfind] at h
        obtain rfl := Option.some.inj h
        exact findall5_shape _ (List.mem_of_find?_eq_some hfind)
      | none =>
        rw [hfind] at h
        have hmem : w ∈ findall5 (text.trim.toList.map Char.toLower) := by
          rcases List.head?_eq_some_iff.mp h with ⟨ys, hys⟩
          rw [hys]
          exact List.mem_cons_self _ _
        exact findall5_shape _ hmem

theorem starters_shape :
    (STARTERS.all fun s => s.length == 5 && s.toList.all Char.isAlpha) =
      true := by
  decide

theorem starters_getD_shape (idx : Nat) (hidx : idx < STARTERS.length) :
    (STARTERS.getD idx "").toList.length = 5 ∧
      (STARTERS.getD idx "").toList.all Char.isAlpha = true := by
  have hmem : STARTERS.getD idx "" ∈ STARTERS := by
    rw [List.getD_eq_getElem?_getD, List.getElem?_eq_getElem hidx]
    exact List.getElem_mem hidx
  have hb := List.all_eq_true.mp starters_shape _ hmem
  rw [Bool.and_eq_true] at hb
  exact ⟨eq_of_beq hb.1, hb.2⟩

theorem fibbleRecover_sub {vocab : List (List Char)}
    {history : List (List Char × List Feedback)}
    {guessed : List (List Char)} :
    ∀ (cols : List Nat) (r : Nat × Constraints × List (List Char)),
      fibbleRecover vocab history guessed cols = some r →
      ∀ w ∈ r.2.2, w ∈ vocab := by
  intro cols
  induction cols with
  | nil =>
    intro r h
    cases h
  | cons col rest ih =>
    intro r h
    rw [fibbleRecover] at h
    by_cases hemp : (vocab.filter fun w =>
        (buildConstraints history (col : Int)).matches w &&
          !(guessed.contains w)).isEmpty = true
    · rw [if_pos hemp] at h
      exact ih r h
    · rw [if_neg hemp] at h
      obtain rfl := Option.some.inj h
      intro w hw
      exact List.mem_of_mem_filter hw

theorem recoveryPhase_shape {numLies : Nat} {vocab : List (List Char)}
    {history : List (List Char × List Feedback)}
    {guessed : List (List Char)} {cs : Constraints}
    {cands : List (List Char)} :
    ∀ w ∈ (recoveryPhase numLies vocab history guessed cs cands).2.1,
      w ∈ cands ∨ w ∈ vocab := by
  rw [recoveryPhase]
  split
  · cases hrec : fibbleRecover vocab history guessed (List.range 5) with
    | some r =>
      intro w hw
      exact Or.inr (fibbleRecover_sub _ r hrec w hw)
    | none =>
      intro w hw
      exact Or.inl hw
  · intro w hw
    exact Or.inl hw

theorem emptyResetPhase_shape {vocab : List (List Char)} {cs : Constraints}
    {cands : List (List Char)} :
    ∀ w ∈ (emptyResetPhase vocab cs cands).1, w ∈ cands ∨ w ∈ vocab := by
  rw [emptyResetPhase]
  split
  · intro w hw
    exact Or.inr (List.mem_of_mem_filter hw)
  · intro w hw
    exact Or.inl hw

theorem llmLoop_spec (cs : Constraints) (scored : List (List Char))
    (oracle : Nat → Option String) (hne : scored ≠ [])
    (hshape : ∀ w ∈ scored, w.length = 5 ∧ w.all Char.isAlpha = true) :
    ∀ (fuel calls : Nat),
      (llmLoop cs scored oracle fuel calls).2 ≤ calls + fuel ∧
      (llmLoop cs scored oracle fuel calls).1.length = 5 ∧
      (llmLoop cs scored oracle fuel calls).1.all Char.isAlpha = true := by
  intro fuel
  induction fuel with
  | zero =>
    intro calls
    rw [llmLoop]
    have hmem : scored.headD [] ∈ scored := by
      cases scored with
      | nil => exact absurd rfl hne
      | cons a t => exact List.mem_cons_self _ _
    exact ⟨le_refl _, (hshape _ hmem).1, (hshape _ hmem).2⟩
  | succ m ih =>
    intro calls
    rw [llmLoop]
    split
    · obtain ⟨hc, hs⟩ := ih (calls + 1)
      exact ⟨by omega, hs⟩
    · split
      · obtain ⟨hc, hs⟩ := ih (calls + 1)
        exact ⟨by omega, hs⟩
      · split
        · split
          · rename_i resp hresp hne2 g hex hm
            have hsh := extract_word_shape hex
            exact ⟨by omega, hsh⟩
          · obtain ⟨hc, hs⟩ := ih (calls + 1)
            exact ⟨by omega, hs⟩
        · obtain ⟨hc, hs⟩ := ih (calls + 1)
          exact ⟨by omega, hs⟩

theorem headD_mem {l : List (List Char)} (h : l ≠ []) : l.headD [] ∈ l := by
  cases l with
  | nil => exact absurd rfl h
  | cons a t => exact List.mem_cons_self _ _

theorem solverChoose_spec (vocab : List (List Char)) (numLies : Nat)
    (guessed : List (List Char)) (st : AIState)
    (oracle : Nat → Option String)
    (hvocab : ∀ w ∈ vocab, w.length = 5 ∧ w.all Char.isAlpha = true)
    (hcands : ∀ w ∈ st.candidates, w.length = 5 ∧ w.all Char.isAlpha = true) :
    (solverChoose vocab numLies guessed st oracle).2.1 ≤
      MAX_LLM_CONTINUOUS_CALLS ∧
    (solverChoose vocab numLies guessed st oracle).1.length = 5 ∧
    (solverChoose vocab numLies guessed st oracle).1.all Char.isAlpha =
      true := by
  have hshape3 : ∀ w ∈ (recoveryPhase numLies vocab st.history guessed
      st.constraints (st.candidates.filter fun w =>
        st.constraints.matches w && !(guessed.contains w))).2.1,
      w.length = 5 ∧ w.all Char.isAlpha = true := by
    intro w hw
    rcases recoveryPhase_shape w hw with h1 | h2
    · exact hcands w (List.mem_of_mem_filter h1)
    · exact hvocab w h2
  rw [solverChoose]
  dsimp only
  split
  · rename_i hlen1
    have hne : (recoveryPhase numLies vocab st.history guessed
        st.constraints (st.candidates.filter fun w =>
          st.constraints.matches w && !(guessed.contains w))).2.1 ≠ [] := by
      intro hnil
      rw [hnil] at hlen1
      simp at hlen1
    have hmem := headD_mem hne
    exact ⟨Nat.zero_le _, (hshape3 _ hmem).1, (hshape3 _ hmem).2⟩
  · have hshape4 : ∀ w ∈ (emptyResetPhase vocab
        (recoveryPhase numLies vocab st.history guessed st.constraints
          (st.candidates.filter fun w =>
            st.constraints.matches w && !(guessed.contains w))).1
        (recoveryPhase numLies vocab st.history guessed st.constraints
          (st.candidates.filter fun w =>
            st.constraints.matches w && !(guessed.contains w))).2.1).1,
        w.length = 5 ∧ w.all Char.isAlpha = true := by
      intro w hw
      rcases emptyResetPhase_shape w hw with h1 | h2
      · exact hshape3 w h1
      · exact hvocab w h2
    split
    · refine ⟨Nat.zero_le _, ?_, ?_⟩
      · exact (starters_getD_shape _ (Nat.mod_lt _ (by decide))).1
      · exact (starters_getD_shape _ (Nat.mod_lt _ (by decide))).2
    · rename_i hne4
      have hne : (emptyResetPhase vocab
          (recoveryPhase numLies vocab st.history guessed st.constraints
            (st.candidates.filter fun w =>
              st.constraints.matches w && !(guessed.contains w))).1
          (recoveryPhase numLies vocab st.history guessed st.constraints
            (st.candidates.filter fun w =>
              st.constraints.matches w && !(guessed.contains w))).2.1).1
          ≠ [] := by
        intro hnil
        rw [hnil] at hne4
        exact hne4 rfl
      have hsne : sortDesc (emptyResetPhase vocab
          (recoveryPhase numLies vocab st.history guessed st.constraints
            (st.candidates.filter fun w =>
              st.constraints.matches w && !(guessed.contains w))).1
          (recoveryPhase numLies vocab st.history guessed st.constraints
            (st.candidates.filter fun w =>
              st.constraints.matches w && !(guessed.contains w))).2.1).1
          ≠ [] := by
        intro hnil
        have := sortDesc_length (emptyResetPhase vocab
          (recoveryPhase numLies vocab st.history guessed st.constraints
            (st.candidates.filter fun w =>
              st.constraints.matches w && !(guessed.contains w))).1
          (recoveryPhase numLies vocab st.history guessed st.constraints
            (st.candidates.filter fun w =>
              st.constraints.matches w && !(guessed.contains w))).2.1).1
        apply hne
        have hlenz := sortDesc_length (emptyResetPhase vocab
          (recoveryPhase numLies vocab st.history guessed st.constraints
            (st.candidates.filter fun w =>
              st.constraints.matches w && !(guessed.contains w))).1
          (recoveryPhase numLies vocab st.history guessed st.constraints
            (st.candidates.filter fun w =>
              st.constraints.matches w && !(guessed.contains w))).2.1).1
        rw [hnil] at hlenz
        exact List.length_eq_zero.mp hlenz.symm
      have hsshape : ∀ w ∈ sortDesc (emptyResetPhase vocab
          (recoveryPhase numLies vocab st.history guessed st.constraints
            (st.candidates.filter fun w =>
              st.constraints.matches w && !(guessed.contains w))).1
          (recoveryPhase numLies vocab st.history guessed st.constraints
            (st.candidates.filter fun w =>
              st.constraints.matches w && !(guessed.contains w))).2.1).1,
          w.length = 5 ∧ w.all Char.isAlpha = true := by
        intro w hw
        exact hshape4 w (sortDesc_mem hw)
      obtain ⟨hc, hs1, hs2⟩ := llmLoop_spec _ _ oracle hsne hsshape
        MAX_LLM_CONTINUOUS_CALLS 0
      dsimp only
      exact ⟨by omega, hs1, hs2⟩

/-- Claim C8: for every turn and every behaviour of the oracle (including
every call returning no reply or a malformed reply), the per-turn solver
makes at most `MAX_LLM_CONTINUOUS_CALLS` oracle calls and always chooses
exactly one guess consisting of 5 alphabetic characters — empty candidate
sets, budget exhaustion, and oracle failure are all recovered locally (the
function is total and every path yields a well-formed guess). -/
theorem solver_turn_bounded (vocab : List (List Char)) (numLies : Nat)
    (wordsEntered : List (List Char × List Feedback)) (st : AIState)
    (oracle : Nat → Option String)
    (hvocab : ∀ w ∈ vocab, w.length = 5 ∧ w.all Char.isAlpha = true)
    (hcands : ∀ w ∈ st.candidates, w.length = 5 ∧ w.all Char.isAlpha = true) :
    (enter_word_from_ai vocab numLies wordsEntered st oracle).2.1 ≤
      MAX_LLM_CONTINUOUS_CALLS ∧
    (enter_word_from_ai vocab numLies wordsEntered st oracle).1.length = 5 ∧
    (enter_word_from_ai vocab numLies wordsEntered st oracle).1.all
      Char.isAlpha = true := by
  rw [enter_word_from_ai]
  dsimp only
  split
  · exact ⟨Nat.zero_le _, (starters_getD_shape 0 (by decide)).1,
      (starters_getD_shape 0 (by decide)).2⟩
  · split
    · exact solverChoose_spec vocab numLies (wordsEntered.map Prod.fst) _
        oracle hvocab hcands
    · exact solverChoose_spec vocab numLies (wordsEntered.map Prod.fst) _
        oracle hvocab hcands

/-- Witness for C8: a one-word vocabulary, an always-failing oracle, and a
fresh solver state. -/
theorem solver_turn_bounded_witness :
    ((∀ w ∈ [("crane".toList)], w.length = 5 ∧ w.all Char.isAlpha = true) ∧
      (∀ w ∈ (⟨Constraints.init, [("crane".toList)], 1, []⟩ :
          AIState).candidates,
        w.length = 5 ∧ w.all Char.isAlpha = true)) ∧
    ((enter_word_from_ai [("crane".toList)] 0 [(("salet".toList),
        List.replicate 5 Feedback.incorrect)]
        ⟨Constraints.init, [("crane".toList)], 1, []⟩
        (fun _ => none)).2.1 ≤ MAX_LLM_CONTINUOUS_CALLS ∧
      (enter_word_from_ai [("crane".toList)] 0 [(("salet".toList),
        List.replicate 5 Feedback.incorrect)]
        ⟨Constraints.init, [("crane".toList)], 1, []⟩
        (fun _ => none)).1.length = 5 ∧
      (enter_word_from_ai [("crane".toList)] 0 [(("salet".toList),
        List.replicate 5 Feedback.incorrect)]
        ⟨Constraints.init, [("crane".toList)], 1, []⟩
        (fun _ => none)).1.all Char.isAlpha = true) :=
  ⟨⟨by decide, by decide⟩,
    solver_turn_bounded [("crane".toList)] 0 [(("salet".toList),
        List.replicate 5 Feedback.incorrect)]
      ⟨Constraints.init, [("crane".toList)], 1, []⟩ (fun _ => none)
      (by decide) (by decide)⟩
